import Mathlib

/-!
# Verification of the Stellar access-control indexer's decode-and-validate layer

Shallow embedding of `src/mappings/validation.ts` and
`src/mappings/mappingHandlers.ts` from the `stellar-access-control-indexer`
repository, together with proofs of the specification claims about them.

Modelling conventions:
* A JavaScript value produced by `scValToNative` is a `Native`; `undefined`
  is modelled as `Option.none` wherever the source can observe it.
* `scValToNative` can throw, so it is modelled as `Except`-valued; the
  repository's `safeScValToNative` is the `try/catch` collapsing any
  decoding exception to `undefined` (`none`).
* Machine integers that the handlers read (`ledger.sequence`,
  `live_until_ledger`) are modelled as `Int`; JS `Date` objects and
  `BigInt` conversions are carried as the underlying timestamp string /
  integer, since the handlers never compute with them.
* The external persistent store is modelled as total maps keyed by the
  entity id, with `create`/`save` behaving as upsert (create-or-replace)
  at the storage boundary, matching the design's idempotence requirement.
-/

set_option maxRecDepth 16384

namespace Indexer

/-- A native JavaScript value as produced by `scValToNative`
(string / number / bigint / boolean / null / object-map / array / byte buffer). -/
inductive Native where
  | str (s : String)
  | num (n : Int)
  | big (n : Int)
  | boolean (b : Bool)
  | nullv
  | obj (fields : List (String × Native))
  | arr (elems : List Native)
  | bytes (bs : List Nat)

/-- JavaScript truthiness of a `Native` value. -/
def Native.truthy : Native → Bool
  | .str s => !(s == "")
  | .num n => !(n == 0)
  | .big n => !(n == 0)
  | .boolean b => b
  | .nullv => false
  | .obj _ => true
  | .arr _ => true
  | .bytes _ => true

/-- JavaScript `typeof v === 'object'` for a decoded value. -/
def Native.isObjectType : Native → Bool
  | .obj _ => true
  | .arr _ => true
  | .bytes _ => true
  | .nullv => true
  | _ => false

/-- JavaScript `Array.isArray`. -/
def Native.isArray : Native → Bool
  | .arr _ => true
  | _ => false

/-- First binding of a key in a decoded object's field list. -/
def lookupField : List (String × Native) → String → Option Native
  | [], _ => none
  | (k, v) :: rest, key => if k == key then some v else lookupField rest key

/-- JavaScript `key in v` for the (non-numeric, non-prototype) keys the
handlers probe. -/
def Native.hasKey (v : Native) (key : String) : Bool :=
  match v with
  | .obj fields => (lookupField fields key).isSome
  | _ => false

/-- JavaScript property access `v.key` (`none` models `undefined`). -/
def Native.get (v : Native) (key : String) : Option Native :=
  match v with
  | .obj fields => lookupField fields key
  | _ => none

/-- An opaque tagged binary value (`xdr.ScVal`): either a well-formed
encoding of some native value, or one on which `scValToNative` throws. -/
inductive ScVal where
  | enc (v : Native)
  | malformed

/-- Model of `scValToNative` from `@stellar/stellar-base`: may throw (modelled as
`Except.error`) on a corrupt or foreign-shaped tagged value. -/
def scValToNative : ScVal → Except Unit Native
  | .enc v => .ok v
  | .malformed => .error ()

/-- A JavaScript `try { f() } catch { return undefined }` around an
exception-throwing computation. -/
def tryCatch {α : Type} : Except Unit α → Option α
  | .ok a => some a
  | .error _ => none

/-- Model of `safeScValToNative` (validation.ts): decodes an ScVal, returning
`undefined` if decoding fails.  The argument is `Option ScVal` because the
handlers also pass a possibly-`undefined` `event.value`; `scValToNative`
throws on `undefined`, and the catch collapses that to `undefined` too. -/
def safeScValToNative : Option ScVal → Option Native
  | none => none
  | some sv => tryCatch (scValToNative sv)

/-! ## Address codec

Modelled from the spec: the repository delegates address validation to the
external `@stellar/stellar-base` `StrKey` class, whose source is not part
of this repository.  Per the spec (§4.2) a strkey is 56 characters of the
restricted base-32 alphabet encoding version-byte ∥ 32-byte payload ∥
2-byte CRC-16/XMODEM checksum (appended little-endian), and validation
checks length, alphabet, checksum, and that the version byte matches the
claimed discriminator ('G' = ed25519 account, version byte 48 = 6 <<< 3;
'C' = contract, version byte 16 = 2 <<< 3). -/

/-- Value of one character of the RFC 4648 base-32 alphabet
`A…Z234567`, or `none` if the character is not in the alphabet. -/
def b32Val (c : Char) : Option Nat :=
  if 'A' ≤ c ∧ c ≤ 'Z' then some (c.toNat - 65)
  else if '2' ≤ c ∧ c ≤ '7' then some (c.toNat - 50 + 26)
  else none

/-- The five bits of a base-32 digit, most significant first. -/
def bits5 (v : Nat) : List Bool :=
  [v.testBit 4, v.testBit 3, v.testBit 2, v.testBit 1, v.testBit 0]

/-- Bit string (MSB first) of a base-32 text, or `none` if any character
is outside the alphabet. -/
def strBits : List Char → Option (List Bool)
  | [] => some []
  | c :: cs =>
    match b32Val c, strBits cs with
    | some v, some bs => some (bits5 v ++ bs)
    | _, _ => none

/-- Natural-number value of a bit string, most significant bit first. -/
def bitsToNat (l : List Bool) : Nat :=
  l.foldl (fun n b => 2 * n + (if b then 1 else 0)) 0

/-- One bit of the bit-serial CRC-16/XMODEM update
(polynomial `0x1021`, init `0`, no reflection, no final xor). -/
def crcStep (s : Nat) (b : Bool) : Nat :=
  ((s <<< 1) &&& 0xFFFF) ^^^ (if (s.testBit 15) != b then 0x1021 else 0)

/-- CRC-16/XMODEM over a bit string (MSB-first bit order). -/
def crcBits (l : List Bool) : Nat :=
  l.foldl crcStep 0

/-- Structural strkey validity for a given version byte: 56 characters of
the base-32 alphabet, the first decoded byte equals the version byte, and
the CRC-16/XMODEM of the 33 data bytes equals the little-endian-appended
2-byte checksum. -/
def strkeyCheck (version : Nat) (s : String) : Bool :=
  if s.length ≠ 56 then false
  else
    match strBits s.data with
    | none => false
    | some bits =>
      bitsToNat (bits.take 8) == version &&
      crcBits (bits.take 264) ==
        bitsToNat ((bits.drop 264).take 8) + 256 * bitsToNat (bits.drop 272)

/-- Model of `StrKey.isValidEd25519PublicKey` (modelled from the spec). -/
def isValidEd25519PublicKey (s : String) : Bool := strkeyCheck 48 s

/-- Model of `StrKey.isValidContract` (modelled from the spec). -/
def isValidContract (s : String) : Bool := strkeyCheck 16 s

/-- JavaScript `s.startsWith(c)` for a single-character prefix. -/
def jsStartsWith (s : String) (c : Char) : Bool :=
  match s.data with
  | [] => false
  | c0 :: _ => c0 == c

/-- Model of `isValidStellarAddress` (validation.ts) on an actual string. -/
def isValidStellarAddressStr (s : String) : Bool :=
  if jsStartsWith s 'G' then isValidEd25519PublicKey s
  else if jsStartsWith s 'C' then isValidContract s
  else false

/-- Model of `isValidStellarAddress` (validation.ts) on an arbitrary JS value
(`unknown`); non-strings are rejected by the `typeof` guard. -/
def isValidStellarAddress : Option Native → Bool
  | some (.str s) => isValidStellarAddressStr s
  | _ => false

/-! ## Identifier validator -/

/-- One character of the Soroban symbol character class `[a-zA-Z0-9_]`. -/
def symChar (c : Char) : Bool :=
  ('a' ≤ c && c ≤ 'z') || ('A' ≤ c && c ≤ 'Z') || ('0' ≤ c && c ≤ '9') || c == '_'

/-- The regular expression `^[a-zA-Z0-9_]+$` as a string test. -/
def symRegexTest (s : String) : Bool :=
  !s.data.isEmpty && s.data.all symChar

/-- Model of `isValidRoleSymbol` (validation.ts) on an actual string: length in
`[1,32]` and only characters from `[a-zA-Z0-9_]`. -/
def isValidRoleSymbolStr (s : String) : Bool :=
  if s.length == 0 || s.length > 32 then false
  else symRegexTest s

/-- Model of `isValidRoleSymbol` (validation.ts) on an arbitrary JS value;
non-strings are rejected by the `typeof` guard. -/
def isValidRoleSymbol : Option Native → Bool
  | some (.str s) => isValidRoleSymbolStr s
  | _ => false

/-! ## Raw events and envelope accessors -/

/-- The ledger information attached to a raw event.  `hasValidLedgerInfo`
requires `typeof sequence === 'number'`; the sequence is modelled as an
integer-valued JS number. -/
structure LedgerInfo where
  sequence : Int
deriving DecidableEq, Repr

/-- The `event.contractId` handle: `contractId().toString()` either yields
an address string or throws. -/
inductive ContractIdHandle where
  | addr (s : String)
  | raises
deriving DecidableEq, Repr

/-- Model of `event.contractId?.contractId().toString()` without the surrounding
`try`: it can throw. -/
def contractIdString : ContractIdHandle → Except Unit String
  | .addr s => .ok s
  | .raises => .error ()

/-- A raw Soroban contract event as delivered by the host runtime.
`none` fields model `undefined`/`null`. -/
structure RawEvent where
  id : String
  contractId : Option ContractIdHandle
  ledger : Option LedgerInfo
  ledgerClosedAt : String
  txHash : Option String
  topic : List ScVal
  value : Option ScVal

/-- Model of `hasValidLedgerInfo` (validation.ts): the event has a non-null ledger
with a numeric sequence. -/
def hasValidLedgerInfo (e : RawEvent) : Bool :=
  e.ledger.isSome

/-- Model of `getContractAddress` (validation.ts): safely extracts and validates the
event's contract address, catching any exception to `undefined`. -/
def getContractAddress (e : RawEvent) : Option String :=
  match e.contractId with
  | none => none
  | some h =>
    match tryCatch (contractIdString h) with
    | none => none
    | some address =>
      if !(address == "") && isValidStellarAddressStr address then some address
      else none

/-! ## Domain records and the persistent store -/

/-- GraphQL `EventType` enum (generated `../types`). -/
inductive EventType where
  | ROLE_GRANTED
  | ROLE_REVOKED
  | ROLE_ADMIN_CHANGED
  | ADMIN_TRANSFER_INITIATED
  | ADMIN_TRANSFER_COMPLETED
  | ADMIN_RENOUNCED
  | OWNERSHIP_TRANSFER_STARTED
  | OWNERSHIP_TRANSFER_COMPLETED
  | OWNERSHIP_RENOUNCED
deriving DecidableEq, Repr

/-- GraphQL `ContractType` enum (generated `../types`). -/
inductive ContractType where
  | ACCESS_CONTROL
  | OWNABLE
  | ACCESS_CONTROL_OWNABLE
deriving DecidableEq, Repr

/-- Canonical domain event record (`AccessControlEvent`).  `Option` fields
model the schema's nullable fields; `account := none` corresponds to the
source storing `undefined`. -/
structure AccessControlEvent where
  id : String
  contract : String
  role : Option String
  account : Option String
  admin : Option String
  previousAdminRole : Option String := none
  newAdminRole : Option String := none
  type : EventType
  blockHeight : Int
  timestamp : String
  txHash : String
  ledger : Int
deriving DecidableEq, Repr

/-- The `RoleMembership` aggregate record. -/
structure RoleMembership where
  id : String
  contract : String
  role : String
  account : String
  grantedAt : String
  grantedBy : Option String
  txHash : String
deriving DecidableEq, Repr

/-- The `ContractOwnership` aggregate record. -/
structure ContractOwnership where
  id : String
  contract : String
  owner : String
  previousOwner : Option String
  transferredAt : String
  txHash : String
deriving DecidableEq, Repr

/-- The `Contract` metadata aggregate record. -/
structure ContractMeta where
  id : String
  address : String
  type : ContractType
  deployedAt : Option String := none
  deployTxHash : Option String := none
  lastActivityAt : String
deriving DecidableEq, Repr

/-- The persistent store, one keyed table per entity; `save`/`create`
behaves as upsert-by-id at this boundary. -/
@[ext]
structure Store where
  events : String → Option AccessControlEvent
  memberships : String → Option RoleMembership
  ownerships : String → Option ContractOwnership
  contracts : String → Option ContractMeta

/-- Upsert-by-key into a table. -/
def upd {α : Type} (f : String → Option α) (k : String) (v : α) :
    String → Option α :=
  fun k' => if k' = k then some v else f k'

/-- Remove-by-key from a table. -/
def rem {α : Type} (f : String → Option α) (k : String) :
    String → Option α :=
  fun k' => if k' = k then none else f k'

/-- Model of `updateContractMetadata` (mappingHandlers.ts): create the metadata
record on first sight, otherwise refresh `lastActivityAt` and widen `type`
to the combined capability when a different single capability is seen. -/
def updateContractMetadata (contractAddress : String) (ty : ContractType)
    (lastActivity : String) (contracts : String → Option ContractMeta) :
    String → Option ContractMeta :=
  match contracts contractAddress with
  | none =>
    upd contracts contractAddress
      { id := contractAddress, address := contractAddress, type := ty,
        lastActivityAt := lastActivity }
  | some contract =>
    upd contracts contractAddress
      { contract with
        lastActivityAt := lastActivity,
        type :=
          if ty ≠ contract.type ∧
              (ty = .ACCESS_CONTROL ∨ ty = .OWNABLE) then
            .ACCESS_CONTROL_OWNABLE
          else contract.type }

/-! ## Extraction rules (the nine event handlers) -/

/-- The store writes an accepted event performs besides saving the
canonical event record itself. -/
structure Effects where
  metaUpdate : Option (String × ContractType × String) := none
  putMembership : Option RoleMembership := none
  removeMembershipId : Option String := none
  putOwnership : Option ContractOwnership := none
  removeOwnershipId : Option String := none
deriving DecidableEq, Repr

/-- Outcome of one extraction rule on one raw event: decline (an early
`return` producing nothing) or accept with a canonical event and its
aggregate effects. -/
inductive HandlerResult where
  | declined
  | accepted (ev : AccessControlEvent) (eff : Effects)
deriving DecidableEq, Repr

/-- JavaScript `o || d` for a possibly-undefined string
(`event.transaction?.hash || 'unknown'`). -/
def jsOrDefault (o : Option String) (d : String) : String :=
  match o with
  | some s => if s == "" then d else s
  | none => d

/-- The caller-extraction block shared verbatim by `handleRoleGranted` and
`handleRoleRevoked`: the payload optionally carries `{ caller: Address }`;
a missing value, failed decode, missing key or invalid address all leave
the sender `undefined`. -/
def senderOf (value : Option ScVal) : Option String :=
  match value with
  | none => none
  | some v =>
    match safeScValToNative (some v) with
    | none => none
    | some decodedValue =>
      if decodedValue.truthy && decodedValue.isObjectType &&
          decodedValue.hasKey "caller" &&
          isValidStellarAddress (decodedValue.get "caller") then
        match decodedValue.get "caller" with
        | some (.str s) => some s
        | _ => none
      else none

/-- Model of `handleRoleGranted`: topics `["role_granted", role, account]`,
payload `{ caller }` optional. -/
def handleRoleGranted (event : RawEvent) : HandlerResult :=
  match event.ledger with
  | none => .declined
  | some ledger =>
  if event.topic.length ≠ 3 then .declined
  else match getContractAddress event with
  | none => .declined
  | some contractAddress =>
  let role := safeScValToNative event.topic[1]?
  let account := safeScValToNative event.topic[2]?
  if !(isValidRoleSymbol role) || !(isValidStellarAddress account) then .declined
  else match role, account with
  | some (.str roleS), some (.str accountS) =>
    let sender := senderOf event.value
    let membershipId := contractAddress ++ "-" ++ roleS ++ "-" ++ accountS
    .accepted
      { id := event.id ++ "-granted", contract := contractAddress,
        role := some roleS, account := some accountS, admin := sender,
        type := .ROLE_GRANTED, blockHeight := ledger.sequence,
        timestamp := event.ledgerClosedAt,
        txHash := jsOrDefault event.txHash "unknown",
        ledger := ledger.sequence }
      { metaUpdate := some (contractAddress, .ACCESS_CONTROL, event.ledgerClosedAt),
        putMembership := some
          { id := membershipId, contract := contractAddress, role := roleS,
            account := accountS, grantedAt := event.ledgerClosedAt,
            grantedBy := sender, txHash := jsOrDefault event.txHash "unknown" } }
  | _, _ => .declined  -- unreachable: the two validators force string shape

/-- Model of `handleRoleRevoked`: topics `["role_revoked", role, account]`,
payload `{ caller }` optional; deletes the membership. -/
def handleRoleRevoked (event : RawEvent) : HandlerResult :=
  match event.ledger with
  | none => .declined
  | some ledger =>
  if event.topic.length ≠ 3 then .declined
  else match getContractAddress event with
  | none => .declined
  | some contractAddress =>
  let role := safeScValToNative event.topic[1]?
  let account := safeScValToNative event.topic[2]?
  if !(isValidRoleSymbol role) || !(isValidStellarAddress account) then .declined
  else match role, account with
  | some (.str roleS), some (.str accountS) =>
    let sender := senderOf event.value
    let membershipId := contractAddress ++ "-" ++ roleS ++ "-" ++ accountS
    .accepted
      { id := event.id ++ "-revoked", contract := contractAddress,
        role := some roleS, account := some accountS, admin := sender,
        type := .ROLE_REVOKED, blockHeight := ledger.sequence,
        timestamp := event.ledgerClosedAt,
        txHash := jsOrDefault event.txHash "unknown",
        ledger := ledger.sequence }
      { metaUpdate := some (contractAddress, .ACCESS_CONTROL, event.ledgerClosedAt),
        removeMembershipId := some membershipId }
  | _, _ => .declined  -- unreachable: the two validators force string shape

/-- Model of `handleAdminTransferInitiated`: topics
`["admin_transfer_initiated", current_admin]`, payload
`{ new_admin, live_until_ledger }` both required. -/
def handleAdminTransferInitiated (event : RawEvent) : HandlerResult :=
  match event.ledger with
  | none => .declined
  | some ledger =>
  if event.topic.length ≠ 2 then .declined
  else match getContractAddress event with
  | none => .declined
  | some contractAddress =>
  let currentAdmin := safeScValToNative event.topic[1]?
  if !(isValidStellarAddress currentAdmin) then .declined
  else match safeScValToNative event.value with
  | none => .declined
  | some eventData =>
    if !eventData.truthy || !eventData.isObjectType ||
        !(eventData.hasKey "new_admin") ||
        !(eventData.hasKey "live_until_ledger") then .declined
    else
    let newAdmin := eventData.get "new_admin"
    if !(isValidStellarAddress newAdmin) then .declined
    else match eventData.get "live_until_ledger" with
    | some (.num _) =>
      match currentAdmin, newAdmin with
      | some (.str currentAdminS), some (.str newAdminS) =>
        .accepted
          { id := event.id ++ "-admin-init", contract := contractAddress,
            role := none, account := some newAdminS,
            admin := some currentAdminS,
            type := .ADMIN_TRANSFER_INITIATED, blockHeight := ledger.sequence,
            timestamp := event.ledgerClosedAt,
            txHash := jsOrDefault event.txHash "unknown",
            ledger := ledger.sequence }
          {}
      | _, _ => .declined  -- unreachable: the validators force string shape
    | _ => .declined  -- typeof live_until_ledger is not 'number'

/-- Model of `handleAdminTransferCompleted`: topics
`["admin_transfer_completed", new_admin]`, payload `{ previous_admin }`. -/
def handleAdminTransferCompleted (event : RawEvent) : HandlerResult :=
  match event.ledger with
  | none => .declined
  | some ledger =>
  if event.topic.length ≠ 2 then .declined
  else match getContractAddress event with
  | none => .declined
  | some contractAddress =>
  let newAdmin := safeScValToNative event.topic[1]?
  if !(isValidStellarAddress newAdmin) then .declined
  else match safeScValToNative event.value with
  | none => .declined
  | some eventData =>
    if !eventData.truthy || !eventData.isObjectType ||
        !(eventData.hasKey "previous_admin") then .declined
    else
    let previousAdmin := eventData.get "previous_admin"
    if !(isValidStellarAddress previousAdmin) then .declined
    else match newAdmin, previousAdmin with
    | some (.str newAdminS), some (.str previousAdminS) =>
      .accepted
        { id := event.id ++ "-admin-complete", contract := contractAddress,
          role := none, account := some newAdminS,
          admin := some previousAdminS,
          type := .ADMIN_TRANSFER_COMPLETED, blockHeight := ledger.sequence,
          timestamp := event.ledgerClosedAt,
          txHash := jsOrDefault event.txHash "unknown",
          ledger := ledger.sequence }
        { metaUpdate := some (contractAddress, .ACCESS_CONTROL, event.ledgerClosedAt) }
    | _, _ => .declined  -- unreachable: the validators force string shape

/-- Model of `handleOwnershipTransferStarted`: topics `["ownership_transfer"]`,
payload `{ old_owner, new_owner, live_until_ledger }` (the third field is
not checked by the source). -/
def handleOwnershipTransferStarted (event : RawEvent) : HandlerResult :=
  match event.ledger with
  | none => .declined
  | some ledger =>
  if event.topic.length ≠ 1 then .declined
  else match getContractAddress event with
  | none => .declined
  | some contractAddress =>
  match safeScValToNative event.value with
  | none => .declined
  | some eventData =>
    if !eventData.truthy || !eventData.isObjectType || eventData.isArray then
      .declined
    else if !(eventData.hasKey "old_owner") || !(eventData.hasKey "new_owner") then
      .declined
    else
    let oldOwner := eventData.get "old_owner"
    let newOwner := eventData.get "new_owner"
    if !(isValidStellarAddress oldOwner) || !(isValidStellarAddress newOwner) then
      .declined
    else match oldOwner, newOwner with
    | some (.str oldOwnerS), some (.str newOwnerS) =>
      .accepted
        { id := event.id ++ "-ownership-start", contract := contractAddress,
          role := none, account := some newOwnerS, admin := some oldOwnerS,
          type := .OWNERSHIP_TRANSFER_STARTED, blockHeight := ledger.sequence,
          timestamp := event.ledgerClosedAt,
          txHash := jsOrDefault event.txHash "unknown",
          ledger := ledger.sequence }
        {}
    | _, _ => .declined  -- unreachable: the validators force string shape

/-- Model of `handleOwnershipTransferCompleted`: topics
`["ownership_transfer_completed"]`, payload `{ new_owner }`; upserts the
ownership aggregate. -/
def handleOwnershipTransferCompleted (event : RawEvent) : HandlerResult :=
  match event.ledger with
  | none => .declined
  | some ledger =>
  if event.topic.length ≠ 1 then .declined
  else match getContractAddress event with
  | none => .declined
  | some contractAddress =>
  match safeScValToNative event.value with
  | none => .declined
  | some eventData =>
    if !eventData.truthy || !eventData.isObjectType ||
        !(eventData.hasKey "new_owner") then .declined
    else
    let newOwner := eventData.get "new_owner"
    if !(isValidStellarAddress newOwner) then .declined
    else match newOwner with
    | some (.str newOwnerS) =>
      .accepted
        { id := event.id ++ "-ownership", contract := contractAddress,
          role := none, account := some newOwnerS, admin := none,
          type := .OWNERSHIP_TRANSFER_COMPLETED, blockHeight := ledger.sequence,
          timestamp := event.ledgerClosedAt,
          txHash := jsOrDefault event.txHash "unknown",
          ledger := ledger.sequence }
        { metaUpdate := some (contractAddress, .OWNABLE, event.ledgerClosedAt),
          putOwnership := some
            { id := contractAddress, contract := contractAddress,
              owner := newOwnerS, previousOwner := none,
              transferredAt := event.ledgerClosedAt,
              txHash := jsOrDefault event.txHash "unknown" } }
    | _ => .declined  -- unreachable: the validator forces string shape

/-- Model of `handleOwnershipRenounced`: topics `["ownership_renounced"]`, payload
`{ old_owner }`; deletes the ownership aggregate. -/
def handleOwnershipRenounced (event : RawEvent) : HandlerResult :=
  match event.ledger with
  | none => .declined
  | some ledger =>
  if event.topic.length ≠ 1 then .declined
  else match getContractAddress event with
  | none => .declined
  | some contractAddress =>
  match safeScValToNative event.value with
  | none => .declined
  | some eventData =>
    if !eventData.truthy || !eventData.isObjectType ||
        !(eventData.hasKey "old_owner") then .declined
    else
    let oldOwner := eventData.get "old_owner"
    if !(isValidStellarAddress oldOwner) then .declined
    else match oldOwner with
    | some (.str oldOwnerS) =>
      .accepted
        { id := event.id ++ "-ownership-renounced", contract := contractAddress,
          role := none, account := some oldOwnerS, admin := none,
          type := .OWNERSHIP_RENOUNCED, blockHeight := ledger.sequence,
          timestamp := event.ledgerClosedAt,
          txHash := jsOrDefault event.txHash "unknown",
          ledger := ledger.sequence }
        { metaUpdate := some (contractAddress, .OWNABLE, event.ledgerClosedAt),
          removeOwnershipId := some contractAddress }
    | _ => .declined  -- unreachable: the validator forces string shape

/-- Model of `handleAdminRenounced`: topics `["admin_renounced", admin]`, empty
payload. -/
def handleAdminRenounced (event : RawEvent) : HandlerResult :=
  match event.ledger with
  | none => .declined
  | some ledger =>
  if event.topic.length ≠ 2 then .declined
  else match getContractAddress event with
  | none => .declined
  | some contractAddress =>
  let admin := safeScValToNative event.topic[1]?
  if !(isValidStellarAddress admin) then .declined
  else match admin with
  | some (.str adminS) =>
    .accepted
      { id := event.id ++ "-admin-renounced", contract := contractAddress,
        role := none, account := some adminS, admin := none,
        type := .ADMIN_RENOUNCED, blockHeight := ledger.sequence,
        timestamp := event.ledgerClosedAt,
        txHash := jsOrDefault event.txHash "unknown",
        ledger := ledger.sequence }
      { metaUpdate := some (contractAddress, .ACCESS_CONTROL, event.ledgerClosedAt) }
  | _ => .declined  -- unreachable: the validator forces string shape

/-- Model of `handleRoleAdminChanged`: topics `["role_admin_changed", role]`,
payload `{ previous_admin_role, new_admin_role }`.  The previous admin
role only has to be of string type (it may be empty on a first-time set);
only the new admin role goes through the symbol validator.  The canonical
event stores `account: undefined`. -/
def handleRoleAdminChanged (event : RawEvent) : HandlerResult :=
  match event.ledger with
  | none => .declined
  | some ledger =>
  if event.topic.length ≠ 2 then .declined
  else match getContractAddress event with
  | none => .declined
  | some contractAddress =>
  let role := safeScValToNative event.topic[1]?
  if !(isValidRoleSymbol role) then .declined
  else match safeScValToNative event.value with
  | none => .declined
  | some eventData =>
    if !eventData.truthy || !eventData.isObjectType ||
        !(eventData.hasKey "previous_admin_role") ||
        !(eventData.hasKey "new_admin_role") then .declined
    else
    let newAdminRole := eventData.get "new_admin_role"
    match eventData.get "previous_admin_role" with
    | some (.str previousAdminRoleS) =>
      if !(isValidRoleSymbol newAdminRole) then .declined
      else match role, newAdminRole with
      | some (.str roleS), some (.str newAdminRoleS) =>
        .accepted
          { id := event.id ++ "-role-admin-changed", contract := contractAddress,
            role := some roleS, account := none, admin := none,
            previousAdminRole := some previousAdminRoleS,
            newAdminRole := some newAdminRoleS,
            type := .ROLE_ADMIN_CHANGED, blockHeight := ledger.sequence,
            timestamp := event.ledgerClosedAt,
            txHash := jsOrDefault event.txHash "unknown",
            ledger := ledger.sequence }
          { metaUpdate := some (contractAddress, .ACCESS_CONTROL, event.ledgerClosedAt) }
      | _, _ => .declined  -- unreachable: the validators force string shape
    | _ => .declined  -- typeof previous_admin_role is not 'string'

/-! ## Dispatch and the aggregate projector -/

/-- The nine canonical event kinds, used for dispatch by the host
runtime's topic filter. -/
inductive Kind where
  | roleGranted
  | roleRevoked
  | roleAdminChanged
  | adminTransferInitiated
  | adminTransferCompleted
  | adminRenounced
  | ownershipTransferStarted
  | ownershipTransferCompleted
  | ownershipRenounced
deriving DecidableEq, Repr

/-- Dispatch table from event kind to handler. -/
def runHandler : Kind → RawEvent → HandlerResult
  | .roleGranted => handleRoleGranted
  | .roleRevoked => handleRoleRevoked
  | .roleAdminChanged => handleRoleAdminChanged
  | .adminTransferInitiated => handleAdminTransferInitiated
  | .adminTransferCompleted => handleAdminTransferCompleted
  | .adminRenounced => handleAdminRenounced
  | .ownershipTransferStarted => handleOwnershipTransferStarted
  | .ownershipTransferCompleted => handleOwnershipTransferCompleted
  | .ownershipRenounced => handleOwnershipRenounced

/-- Topic count each handler requires (the OpenZeppelin event shapes). -/
def expectedTopicCount : Kind → Nat
  | .roleGranted => 3
  | .roleRevoked => 3
  | .roleAdminChanged => 2
  | .adminTransferInitiated => 2
  | .adminTransferCompleted => 2
  | .adminRenounced => 2
  | .ownershipTransferStarted => 1
  | .ownershipTransferCompleted => 1
  | .ownershipRenounced => 1

/-- Membership-table writes of one accepted event. -/
def memTrans (eff : Effects) (f : String → Option RoleMembership) :
    String → Option RoleMembership :=
  let f1 := match eff.removeMembershipId with
    | some k => rem f k
    | none => f
  match eff.putMembership with
  | some me => upd f1 me.id me
  | none => f1

/-- Ownership-table writes of one accepted event. -/
def ownTrans (eff : Effects) (f : String → Option ContractOwnership) :
    String → Option ContractOwnership :=
  let f1 := match eff.removeOwnershipId with
    | some k => rem f k
    | none => f
  match eff.putOwnership with
  | some ow => upd f1 ow.id ow
  | none => f1

/-- Metadata-table writes of one accepted event. -/
def metaTrans (eff : Effects) (g : String → Option ContractMeta) :
    String → Option ContractMeta :=
  match eff.metaUpdate with
  | some (a, t, la) => updateContractMetadata a t la g
  | none => g

/-- Apply one handler outcome to the store: a declined event performs no
write at all; an accepted event saves its canonical record and applies its
aggregate effects. -/
def applyResult (r : HandlerResult) (s : Store) : Store :=
  match r with
  | .declined => s
  | .accepted ev eff =>
    { events := upd s.events ev.id ev,
      memberships := memTrans eff s.memberships,
      ownerships := ownTrans eff s.ownerships,
      contracts := metaTrans eff s.contracts }

/-- Process one raw event end-to-end against the store. -/
def applyHandler (k : Kind) (e : RawEvent) (s : Store) : Store :=
  applyResult (runHandler k e) s

/-! ## Concrete fixtures

Addresses taken from the repository's own unit-test vectors
(validation.test.ts), so that accepted-path behaviour can be exhibited on
inputs the source itself treats as genuine. -/

/-- A valid ed25519 account address (test vector). -/
def accountA : String := "GATJOHDT66JL2NL6D2RRWIHUX2YTT6PDH45Q7B4YSPWESY4TFWMAUKTT"

/-- A second valid ed25519 account address (test vector). -/
def accountB : String := "GDGI6UJHEWGBZ3XYADMI75DKM7EMGSL7M4JTX3S52CMVFUL4JXMNMKQO"

/-- A valid contract address (test vector). -/
def contractC : String := "CANM3Y2GVGH6ACSHUORZ56ZFZ2FSFX6XEWPJYW7BNZVAXKSEQMBTDWD2"

/-- The empty store. -/
def emptyStore : Store :=
  { events := fun _ => none, memberships := fun _ => none,
    ownerships := fun _ => none, contracts := fun _ => none }

/-- A well-formed `role_granted` raw event: role `minter`, account
`accountA`, caller `accountB`. -/
def eGrant : RawEvent :=
  { id := "evt1", contractId := some (.addr contractC),
    ledger := some { sequence := 1000 }, ledgerClosedAt := "T1",
    txHash := some "tx1",
    topic := [.enc (.str "role_granted"), .enc (.str "minter"),
              .enc (.str accountA)],
    value := some (.enc (.obj [("caller", .str accountB)])) }

/-- A well-formed `role_revoked` raw event for the same triple as
`eGrant`. -/
def eRevoke : RawEvent :=
  { id := "evt2", contractId := some (.addr contractC),
    ledger := some { sequence := 1001 }, ledgerClosedAt := "T2",
    txHash := some "tx2",
    topic := [.enc (.str "role_revoked"), .enc (.str "minter"),
              .enc (.str accountA)],
    value := some (.enc (.obj [("caller", .str accountB)])) }

/-- A well-formed `admin_transfer_initiated` raw event. -/
def eAdminInit : RawEvent :=
  { id := "evt3", contractId := some (.addr contractC),
    ledger := some { sequence := 1002 }, ledgerClosedAt := "T3",
    txHash := some "tx3",
    topic := [.enc (.str "admin_transfer_initiated"), .enc (.str accountA)],
    value := some (.enc (.obj [("new_admin", .str accountB),
                               ("live_until_ledger", .num 2000)])) }

/-- A `role_admin_changed` raw event whose `previous_admin_role` payload
field is an arbitrary string `p` (everything else well-formed). -/
def eRoleAdminChanged (p : String) : RawEvent :=
  { id := "evt4", contractId := some (.addr contractC),
    ledger := some { sequence := 1003 }, ledgerClosedAt := "T4",
    txHash := some "tx4",
    topic := [.enc (.str "role_admin_changed"), .enc (.str "minter")],
    value := some (.enc (.obj [("previous_admin_role", .str p),
                               ("new_admin_role", .str "admin")])) }

/-- The membership record `eGrant` produces. -/
def memGrant : RoleMembership :=
  { id := contractC ++ "-minter-" ++ accountA, contract := contractC,
    role := "minter", account := accountA, grantedAt := "T1",
    grantedBy := some accountB, txHash := "tx1" }

/-- The canonical event `eGrant` produces. -/
def evGrant : AccessControlEvent :=
  { id := "evt1-granted", contract := contractC, role := some "minter",
    account := some accountA, admin := some accountB,
    type := .ROLE_GRANTED, blockHeight := 1000, timestamp := "T1",
    txHash := "tx1", ledger := 1000 }

/-- The effects `eGrant` produces. -/
def effGrant : Effects :=
  { metaUpdate := some (contractC, .ACCESS_CONTROL, "T1"),
    putMembership := some memGrant }

/-- The canonical event `eRevoke` produces. -/
def evRevoke : AccessControlEvent :=
  { id := "evt2-revoked", contract := contractC, role := some "minter",
    account := some accountA, admin := some accountB,
    type := .ROLE_REVOKED, blockHeight := 1001, timestamp := "T2",
    txHash := "tx2", ledger := 1001 }

/-- The effects `eRevoke` produces. -/
def effRevoke : Effects :=
  { metaUpdate := some (contractC, .ACCESS_CONTROL, "T2"),
    removeMembershipId := some (contractC ++ "-minter-" ++ accountA) }

/-- The canonical event `eAdminInit` produces. -/
def evAdminInit : AccessControlEvent :=
  { id := "evt3-admin-init", contract := contractC, role := none,
    account := some accountB, admin := some accountA,
    type := .ADMIN_TRANSFER_INITIATED, blockHeight := 1002,
    timestamp := "T3", txHash := "tx3", ledger := 1002 }

/-- The canonical event `eRoleAdminChanged p` produces. -/
def evRoleAdminChanged (p : String) : AccessControlEvent :=
  { id := "evt4-role-admin-changed", contract := contractC,
    role := some "minter", account := none, admin := none,
    previousAdminRole := some p, newAdminRole := some "admin",
    type := .ROLE_ADMIN_CHANGED, blockHeight := 1003, timestamp := "T4",
    txHash := "tx4", ledger := 1003 }

/-- The effects `eRoleAdminChanged p` produces. -/
def effRoleAdminChanged : Effects :=
  { metaUpdate := some (contractC, .ACCESS_CONTROL, "T4") }

/-- A raw event whose contract-id handle throws on extraction. -/
def eRaises : RawEvent :=
  { id := "evt5", contractId := some .raises,
    ledger := some { sequence := 1004 }, ledgerClosedAt := "T5",
    txHash := none,
    topic := [.enc (.str "role_granted"), .enc (.str "minter"),
              .enc (.str accountA)],
    value := some .malformed }

/-! ## Claims -/

/-- Claim C1: Every extraction rule, on every raw event input — including
malformed tagged values on which `scValToNative` throws, truncated or
foreign-shaped topic lists, and contract-id handles whose extraction
throws — either produces a canonical domain event (with its effects) or
declines, and the two exception surfaces are resolved locally:
`safeScValToNative` maps any decoding exception to `undefined`, and
`getContractAddress` maps any extraction exception to `undefined`. -/
theorem claim_c1_never_throws :
    (∀ (k : Kind) (e : RawEvent),
        runHandler k e = .declined ∨
          ∃ ev eff, runHandler k e = .accepted ev eff) ∧
    (∀ sv : ScVal, scValToNative sv = .error () →
        safeScValToNative (some sv) = none) ∧
    (∀ e : RawEvent, e.contractId = some .raises →
        getContractAddress e = none) := by
  refine ⟨fun k e => ?_, fun sv h => ?_, fun e h => ?_⟩
  · cases hr : runHandler k e with
    | declined => exact .inl rfl
    | accepted ev eff => exact .inr ⟨ev, eff, rfl⟩
  · simp [safeScValToNative, h, tryCatch]
  · simp [getContractAddress, h, tryCatch, contractIdString]

/-- Witness for C1 at concrete inputs: a malformed tagged value decodes to
`undefined` rather than propagating, and a throwing contract-id handle
yields no contract address. -/
theorem claim_c1_witness :
    safeScValToNative (some ScVal.malformed) = none ∧
      getContractAddress eRaises = none :=
  ⟨claim_c1_never_throws.2.1 .malformed rfl,
   claim_c1_never_throws.2.2 eRaises rfl⟩

/-- Claim C2: Each of the nine handlers declines (producing no canonical
event and performing no store write) on any event whose topic count
differs from the expected count for its kind: 3 for RoleGranted and
RoleRevoked; 2 for RoleAdminChanged, AdminTransferInitiated,
AdminTransferCompleted, AdminRenounced; 1 for OwnershipTransferStarted,
OwnershipTransferCompleted, OwnershipRenounced. -/
theorem claim_c2_topic_count (k : Kind) (e : RawEvent)
    (h : e.topic.length ≠ expectedTopicCount k) :
    runHandler k e = .declined ∧ ∀ s : Store, applyHandler k e s = s := by
  have hd : runHandler k e = .declined := by
    rcases hL : e.ledger with _ | lg <;>
      cases k <;>
        simp only [runHandler, handleRoleGranted, handleRoleRevoked,
          handleRoleAdminChanged, handleAdminTransferInitiated,
          handleAdminTransferCompleted, handleAdminRenounced,
          handleOwnershipTransferStarted, handleOwnershipTransferCompleted,
          handleOwnershipRenounced, expectedTopicCount, hL] at h ⊢ <;>
        simp [h]
  exact ⟨hd, fun s => by simp [applyHandler, hd, applyResult]⟩

/-- Witness for C2: a 3-topic event handed to the 1-topic
`ownership_renounced` rule is declined. -/
theorem claim_c2_witness :
    runHandler .ownershipRenounced eGrant = .declined :=
  (claim_c2_topic_count .ownershipRenounced eGrant (by decide)).1

/-- The length of a string is the length of its character list. -/
theorem string_length_data (s : String) : s.length = s.data.length := rfl

/-- One-character characterisation of the symbol character class. -/
theorem symChar_iff (c : Char) :
    symChar c = true ↔
      ('a' ≤ c ∧ c ≤ 'z') ∨ ('A' ≤ c ∧ c ≤ 'Z') ∨
        ('0' ≤ c ∧ c ≤ '9') ∨ c = '_' := by
  simp only [symChar, Bool.or_eq_true, Bool.and_eq_true, decide_eq_true_eq,
    beq_iff_eq, or_assoc]

/-- String-level characterisation of the identifier validator. -/
theorem isValidRoleSymbolStr_iff (s : String) :
    isValidRoleSymbolStr s = true ↔
      1 ≤ s.length ∧ s.length ≤ 32 ∧
        ∀ c ∈ s.data,
          ('a' ≤ c ∧ c ≤ 'z') ∨ ('A' ≤ c ∧ c ≤ 'Z') ∨
            ('0' ≤ c ∧ c ≤ '9') ∨ c = '_' := by
  constructor
  · intro h
    unfold isValidRoleSymbolStr at h
    split_ifs at h with hlen
    simp only [Bool.or_eq_true, beq_iff_eq, decide_eq_true_eq,
      not_or] at hlen
    obtain ⟨h0, h32⟩ := hlen
    unfold symRegexTest at h
    simp only [Bool.and_eq_true, List.all_eq_true] at h
    refine ⟨Nat.one_le_iff_ne_zero.mpr h0, by omega, fun c hc => ?_⟩
    exact (symChar_iff c).mp (h.2 c hc)
  · rintro ⟨h1, h32, hall⟩
    unfold isValidRoleSymbolStr
    split_ifs with hlen
    · exfalso
      simp only [Bool.or_eq_true, beq_iff_eq, decide_eq_true_eq] at hlen
      omega
    · unfold symRegexTest
      simp only [Bool.and_eq_true, List.all_eq_true]
      refine ⟨?_, fun c hc => (symChar_iff c).mpr (hall c hc)⟩
      rcases hd : s.data with _ | ⟨c0, cs⟩
      · exfalso
        have : s.length = 0 := by rw [string_length_data, hd]; rfl
        omega
      · simp [hd]

/-- Claim C3: The identifier validator accepts a JS value exactly when it is
a string of length 1 to 32 whose characters all come from
`[A-Za-z0-9_]`; in particular there is no restriction on the first
character (all-digit and all-underscore strings are accepted), and
non-strings, the empty string, overlong strings and strings with foreign
characters are rejected. -/
theorem claim_c3_identifier_validator (v : Option Native) :
    isValidRoleSymbol v = true ↔
      ∃ s : String, v = some (.str s) ∧
        1 ≤ s.length ∧ s.length ≤ 32 ∧
        ∀ c ∈ s.data,
          ('a' ≤ c ∧ c ≤ 'z') ∨ ('A' ≤ c ∧ c ≤ 'Z') ∨
            ('0' ≤ c ∧ c ≤ '9') ∨ c = '_' := by
  rcases v with _ | n
  · simp [isValidRoleSymbol]
  rcases n with s | n | n | b | _ | fs | es | bs <;>
    simp only [isValidRoleSymbol, Option.some.injEq, Native.str.injEq,
      false_iff, reduceCtorEq, not_exists, not_and, exists_eq_left',
      exists_and_left] <;>
    try simp
  exact (isValidRoleSymbolStr_iff s).trans (by simp)

/-! ### Store-algebra lemmas -/

theorem upd_self {α : Type} (f : String → Option α) (k : String) (v : α) :
    upd f k v k = some v := by
  simp [upd]

theorem upd_upd_same {α : Type} (f : String → Option α) (k : String) (v w : α) :
    upd (upd f k v) k w = upd f k w := by
  funext k'
  simp only [upd]
  split_ifs <;> rfl

theorem rem_rem_same {α : Type} (f : String → Option α) (k : String) :
    rem (rem f k) k = rem f k := by
  funext k'
  simp only [rem]
  split_ifs <;> rfl

theorem memTrans_idem (eff : Effects) (f : String → Option RoleMembership) :
    memTrans eff (memTrans eff f) = memTrans eff f := by
  unfold memTrans
  rcases hR : eff.removeMembershipId with _ | k <;>
    rcases hP : eff.putMembership with _ | m <;> simp only
  · exact upd_upd_same f m.id m m
  · exact rem_rem_same f k
  · funext k'
    simp only [upd, rem]
    split_ifs <;> rfl

theorem ownTrans_idem (eff : Effects) (f : String → Option ContractOwnership) :
    ownTrans eff (ownTrans eff f) = ownTrans eff f := by
  unfold ownTrans
  rcases hR : eff.removeOwnershipId with _ | k <;>
    rcases hP : eff.putOwnership with _ | m <;> simp only
  · exact upd_upd_same f m.id m m
  · exact rem_rem_same f k
  · funext k'
    simp only [upd, rem]
    split_ifs <;> rfl

/-- The record `updateContractMetadata` writes, as a function of the
record it read. -/
def metaNext (a : String) (t : ContractType) (la : String) :
    Option ContractMeta → ContractMeta
  | none => { id := a, address := a, type := t, lastActivityAt := la }
  | some c =>
    { c with
      lastActivityAt := la,
      type :=
        if t ≠ c.type ∧ (t = .ACCESS_CONTROL ∨ t = .OWNABLE) then
          .ACCESS_CONTROL_OWNABLE
        else c.type }

theorem updateContractMetadata_eq (a : String) (t : ContractType)
    (la : String) (g : String → Option ContractMeta) :
    updateContractMetadata a t la g = upd g a (metaNext a t la (g a)) := by
  unfold updateContractMetadata metaNext
  rcases g a <;> rfl

theorem metaNext_absorb (a : String) (t : ContractType) (la : String)
    (oc : Option ContractMeta) :
    metaNext a t la (some (metaNext a t la oc)) = metaNext a t la oc := by
  rcases oc with _ | c
  · simp only [metaNext]
    split_ifs with h
    · exact absurd rfl h.1
    · rfl
  · simp only [metaNext]
    by_cases hD : t = ContractType.ACCESS_CONTROL ∨ t = ContractType.OWNABLE
    · by_cases h1 : t = c.type
      · simp [h1]
      · have hne : t ≠ ContractType.ACCESS_CONTROL_OWNABLE := by
          rcases hD with h | h <;> simp [h]
        simp [h1, hD, hne]
    · simp [hD]

theorem updateContractMetadata_idem (a : String) (t : ContractType)
    (la : String) (g : String → Option ContractMeta) :
    updateContractMetadata a t la (updateContractMetadata a t la g) =
      updateContractMetadata a t la g := by
  rw [updateContractMetadata_eq, updateContractMetadata_eq (g := g),
    upd_self, upd_upd_same, metaNext_absorb]

theorem metaTrans_idem (eff : Effects) (g : String → Option ContractMeta) :
    metaTrans eff (metaTrans eff g) = metaTrans eff g := by
  unfold metaTrans
  rcases hM : eff.metaUpdate with _ | ⟨a, t, la⟩
  · rfl
  · exact updateContractMetadata_idem a t la g

/-- Claim C6: Processing the same raw event twice (same id, hence the same
deterministic canonical-event id and aggregate keys, with `create` acting
as create-or-replace at the storage boundary) leaves the store in the same
final state as processing it once, for every handler kind, raw event, and
starting store. -/
theorem claim_c6_idempotent (k : Kind) (e : RawEvent) (s : Store) :
    applyHandler k e (applyHandler k e s) = applyHandler k e s := by
  unfold applyHandler
  cases hr : runHandler k e with
  | declined => rfl
  | accepted ev eff =>
    simp only [applyResult]
    congr 1
    · exact upd_upd_same s.events ev.id ev ev
    · exact memTrans_idem eff s.memberships
    · exact ownTrans_idem eff s.ownerships
    · exact metaTrans_idem eff s.contracts

/-! ### Acceptance-inversion lemmas for the nine handlers -/

theorem handleRoleGranted_inv (e : RawEvent) (ev : AccessControlEvent)
    (eff : Effects) (h : handleRoleGranted e = .accepted ev eff) :
    ∃ (lg : LedgerInfo) (ca roleS accountS : String),
      e.ledger = some lg ∧
      getContractAddress e = some ca ∧
      safeScValToNative e.topic[1]? = some (.str roleS) ∧
      safeScValToNative e.topic[2]? = some (.str accountS) ∧
      ev = { id := e.id ++ "-granted", contract := ca, role := some roleS,
             account := some accountS, admin := senderOf e.value,
             type := .ROLE_GRANTED, blockHeight := lg.sequence,
             timestamp := e.ledgerClosedAt,
             txHash := jsOrDefault e.txHash "unknown",
             ledger := lg.sequence } ∧
      eff = { metaUpdate := some (ca, .ACCESS_CONTROL, e.ledgerClosedAt),
              putMembership := some
                { id := ca ++ "-" ++ roleS ++ "-" ++ accountS, contract := ca,
                  role := roleS, account := accountS,
                  grantedAt := e.ledgerClosedAt,
                  grantedBy := senderOf e.value,
                  txHash := jsOrDefault e.txHash "unknown" } } := by
  simp only [handleRoleGranted] at h
  repeat' split at h
  all_goals try cases h
  exact ⟨_, _, _, _, by assumption, by assumption, by assumption,
    by assumption, rfl, rfl⟩

theorem handleRoleRevoked_inv (e : RawEvent) (ev : AccessControlEvent)
    (eff : Effects) (h : handleRoleRevoked e = .accepted ev eff) :
    ∃ (lg : LedgerInfo) (ca roleS accountS : String),
      e.ledger = some lg ∧
      getContractAddress e = some ca ∧
      safeScValToNative e.topic[1]? = some (.str roleS) ∧
      safeScValToNative e.topic[2]? = some (.str accountS) ∧
      ev = { id := e.id ++ "-revoked", contract := ca, role := some roleS,
             account := some accountS, admin := senderOf e.value,
             type := .ROLE_REVOKED, blockHeight := lg.sequence,
             timestamp := e.ledgerClosedAt,
             txHash := jsOrDefault e.txHash "unknown",
             ledger := lg.sequence } ∧
      eff = { metaUpdate := some (ca, .ACCESS_CONTROL, e.ledgerClosedAt),
              removeMembershipId :=
                some (ca ++ "-" ++ roleS ++ "-" ++ accountS) } := by
  simp only [handleRoleRevoked] at h
  repeat' split at h
  all_goals try cases h
  exact ⟨_, _, _, _, by assumption, by assumption, by assumption,
    by assumption, rfl, rfl⟩

theorem handleAdminTransferInitiated_inv (e : RawEvent)
    (ev : AccessControlEvent) (eff : Effects)
    (h : handleAdminTransferInitiated e = .accepted ev eff) :
    ∃ (lg : LedgerInfo) (ca : String) (ed : Native)
      (currentAdminS newAdminS : String) (n : Int),
      e.ledger = some lg ∧
      getContractAddress e = some ca ∧
      safeScValToNative e.topic[1]? = some (.str currentAdminS) ∧
      safeScValToNative e.value = some ed ∧
      ed.get "new_admin" = some (.str newAdminS) ∧
      ed.get "live_until_ledger" = some (.num n) ∧
      ev = { id := e.id ++ "-admin-init", contract := ca, role := none,
             account := some newAdminS, admin := some currentAdminS,
             type := .ADMIN_TRANSFER_INITIATED, blockHeight := lg.sequence,
             timestamp := e.ledgerClosedAt,
             txHash := jsOrDefault e.txHash "unknown",
             ledger := lg.sequence } ∧
      eff = {} := by
  simp only [handleAdminTransferInitiated] at h
  repeat' split at h
  all_goals try cases h
  exact ⟨_, _, _, _, _, _, by assumption, by assumption, by assumption,
    by assumption, by assumption, by assumption, rfl, rfl⟩

theorem handleAdminTransferCompleted_inv (e : RawEvent)
    (ev : AccessControlEvent) (eff : Effects)
    (h : handleAdminTransferCompleted e = .accepted ev eff) :
    ∃ (lg : LedgerInfo) (ca : String) (ed : Native)
      (newAdminS previousAdminS : String),
      e.ledger = some lg ∧
      getContractAddress e = some ca ∧
      safeScValToNative e.topic[1]? = some (.str newAdminS) ∧
      safeScValToNative e.value = some ed ∧
      ed.get "previous_admin" = some (.str previousAdminS) ∧
      ev = { id := e.id ++ "-admin-complete", contract := ca, role := none,
             account := some newAdminS, admin := some previousAdminS,
             type := .ADMIN_TRANSFER_COMPLETED, blockHeight := lg.sequence,
             timestamp := e.ledgerClosedAt,
             txHash := jsOrDefault e.txHash "unknown",
             ledger := lg.sequence } ∧
      eff = { metaUpdate :=
                some (ca, .ACCESS_CONTROL, e.ledgerClosedAt) } := by
  simp only [handleAdminTransferCompleted] at h
  repeat' split at h
  all_goals try cases h
  exact ⟨_, _, _, _, _, by assumption, by assumption, by assumption,
    by assumption, by assumption, rfl, rfl⟩

theorem handleOwnershipTransferStarted_inv (e : RawEvent)
    (ev : AccessControlEvent) (eff : Effects)
    (h : handleOwnershipTransferStarted e = .accepted ev eff) :
    ∃ (lg : LedgerInfo) (ca : String) (ed : Native)
      (oldOwnerS newOwnerS : String),
      e.ledger = some lg ∧
      getContractAddress e = some ca ∧
      safeScValToNative e.value = some ed ∧
      ed.get "old_owner" = some (.str oldOwnerS) ∧
      ed.get "new_owner" = some (.str newOwnerS) ∧
      ev = { id := e.id ++ "-ownership-start", contract := ca, role := none,
             account := some newOwnerS, admin := some oldOwnerS,
             type := .OWNERSHIP_TRANSFER_STARTED, blockHeight := lg.sequence,
             timestamp := e.ledgerClosedAt,
             txHash := jsOrDefault e.txHash "unknown",
             ledger := lg.sequence } ∧
      eff = {} := by
  simp only [handleOwnershipTransferStarted] at h
  repeat' split at h
  all_goals try cases h
  exact ⟨_, _, _, _, _, by assumption, by assumption, by assumption,
    by assumption, by assumption, rfl, rfl⟩

theorem handleOwnershipTransferCompleted_inv (e : RawEvent)
    (ev : AccessControlEvent) (eff : Effects)
    (h : handleOwnershipTransferCompleted e = .accepted ev eff) :
    ∃ (lg : LedgerInfo) (ca : String) (ed : Native) (newOwnerS : String),
      e.ledger = some lg ∧
      getContractAddress e = some ca ∧
      safeScValToNative e.value = some ed ∧
      ed.get "new_owner" = some (.str newOwnerS) ∧
      ev = { id := e.id ++ "-ownership", contract := ca, role := none,
             account := some newOwnerS, admin := none,
             type := .OWNERSHIP_TRANSFER_COMPLETED,
             blockHeight := lg.sequence,
             timestamp := e.ledgerClosedAt,
             txHash := jsOrDefault e.txHash "unknown",
             ledger := lg.sequence } ∧
      eff = { metaUpdate := some (ca, .OWNABLE, e.ledgerClosedAt),
              putOwnership := some
                { id := ca, contract := ca, owner := newOwnerS,
                  previousOwner := none,
                  transferredAt := e.ledgerClosedAt,
                  txHash := jsOrDefault e.txHash "unknown" } } := by
  simp only [handleOwnershipTransferCompleted] at h
  repeat' split at h
  all_goals try cases h
  exact ⟨_, _, _, _, by assumption, by assumption, by assumption,
    by assumption, rfl, rfl⟩

theorem handleOwnershipRenounced_inv (e : RawEvent)
    (ev : AccessControlEvent) (eff : Effects)
    (h : handleOwnershipRenounced e = .accepted ev eff) :
    ∃ (lg : LedgerInfo) (ca : String) (ed : Native) (oldOwnerS : String),
      e.ledger = some lg ∧
      getContractAddress e = some ca ∧
      safeScValToNative e.value = some ed ∧
      ed.get "old_owner" = some (.str oldOwnerS) ∧
      ev = { id := e.id ++ "-ownership-renounced", contract := ca,
             role := none, account := some oldOwnerS, admin := none,
             type := .OWNERSHIP_RENOUNCED, blockHeight := lg.sequence,
             timestamp := e.ledgerClosedAt,
             txHash := jsOrDefault e.txHash "unknown",
             ledger := lg.sequence } ∧
      eff = { metaUpdate := some (ca, .OWNABLE, e.ledgerClosedAt),
              removeOwnershipId := some ca } := by
  simp only [handleOwnershipRenounced] at h
  repeat' split at h
  all_goals try cases h
  exact ⟨_, _, _, _, by assumption, by assumption, by assumption,
    by assumption, rfl, rfl⟩

theorem handleAdminRenounced_inv (e : RawEvent) (ev : AccessControlEvent)
    (eff : Effects) (h : handleAdminRenounced e = .accepted ev eff) :
    ∃ (lg : LedgerInfo) (ca adminS : String),
      e.ledger = some lg ∧
      getContractAddress e = some ca ∧
      safeScValToNative e.topic[1]? = some (.str adminS) ∧
      ev = { id := e.id ++ "-admin-renounced", contract := ca, role := none,
             account := some adminS, admin := none,
             type := .ADMIN_RENOUNCED, blockHeight := lg.sequence,
             timestamp := e.ledgerClosedAt,
             txHash := jsOrDefault e.txHash "unknown",
             ledger := lg.sequence } ∧
      eff = { metaUpdate :=
                some (ca, .ACCESS_CONTROL, e.ledgerClosedAt) } := by
  simp only [handleAdminRenounced] at h
  repeat' split at h
  all_goals try cases h
  exact ⟨_, _, _, by assumption, by assumption, by assumption, rfl, rfl⟩

theorem handleRoleAdminChanged_inv (e : RawEvent) (ev : AccessControlEvent)
    (eff : Effects) (h : handleRoleAdminChanged e = .accepted ev eff) :
    ∃ (lg : LedgerInfo) (ca : String) (ed : Native)
      (roleS previousAdminRoleS newAdminRoleS : String),
      e.ledger = some lg ∧
      getContractAddress e = some ca ∧
      safeScValToNative e.topic[1]? = some (.str roleS) ∧
      safeScValToNative e.value = some ed ∧
      ed.get "previous_admin_role" = some (.str previousAdminRoleS) ∧
      ed.get "new_admin_role" = some (.str newAdminRoleS) ∧
      ev = { id := e.id ++ "-role-admin-changed", contract := ca,
             role := some roleS, account := none, admin := none,
             previousAdminRole := some previousAdminRoleS,
             newAdminRole := some newAdminRoleS,
             type := .ROLE_ADMIN_CHANGED, blockHeight := lg.sequence,
             timestamp := e.ledgerClosedAt,
             txHash := jsOrDefault e.txHash "unknown",
             ledger := lg.sequence } ∧
      eff = { metaUpdate :=
                some (ca, .ACCESS_CONTROL, e.ledgerClosedAt) } := by
  simp only [handleRoleAdminChanged] at h
  repeat' split at h
  all_goals try cases h
  exact ⟨_, _, _, _, _, _, by assumption, by assumption, by assumption,
    by assumption, by assumption, by assumption, rfl, rfl⟩

/-- Claim C5: Every accepted RoleGranted event upserts (creates or
overwrites, whatever the prior store contents) a membership record under
the key `{contract}-{role}-{account}` whose `grantedAt`/`grantedBy` come
from this event; every accepted RoleRevoked event removes exactly the
membership key `{contract}-{role}-{account}` built from its own fields,
leaving all other membership keys untouched.  In particular a grant
followed by a revoke of the same triple leaves the key absent, and a
re-grant of the same triple replaces `grantedAt`/`grantedBy`. -/
theorem claim_c5_membership_lifecycle :
    (∀ (e : RawEvent) (s : Store) (ev : AccessControlEvent) (eff : Effects),
        runHandler .roleGranted e = .accepted ev eff →
        ∃ (r a : String) (m : RoleMembership),
          ev.role = some r ∧ ev.account = some a ∧
          eff.putMembership = some m ∧
          m.id = ev.contract ++ "-" ++ r ++ "-" ++ a ∧
          m.contract = ev.contract ∧ m.role = r ∧ m.account = a ∧
          m.grantedAt = e.ledgerClosedAt ∧ m.grantedBy = senderOf e.value ∧
          (applyHandler .roleGranted e s).memberships m.id = some m) ∧
    (∀ (e : RawEvent) (s : Store) (ev : AccessControlEvent) (eff : Effects),
        runHandler .roleRevoked e = .accepted ev eff →
        ∃ r a : String,
          ev.role = some r ∧ ev.account = some a ∧
          eff.removeMembershipId =
            some (ev.contract ++ "-" ++ r ++ "-" ++ a) ∧
          (applyHandler .roleRevoked e s).memberships
            (ev.contract ++ "-" ++ r ++ "-" ++ a) = none ∧
          ∀ k', k' ≠ ev.contract ++ "-" ++ r ++ "-" ++ a →
            (applyHandler .roleRevoked e s).memberships k' =
              s.memberships k') := by
  constructor
  · intro e s ev eff h
    obtain ⟨lg, ca, roleS, accountS, hlg, hca, ht1, ht2, hev, heff⟩ :=
      handleRoleGranted_inv e ev eff h
    subst hev heff
    refine ⟨roleS, accountS, _, rfl, rfl, rfl, rfl, rfl, rfl, rfl, rfl,
      rfl, ?_⟩
    have happ : applyHandler .roleGranted e s =
        applyResult (runHandler .roleGranted e) s := rfl
    rw [happ, h]
    simp [applyResult, memTrans, upd_self]
  · intro e s ev eff h
    obtain ⟨lg, ca, roleS, accountS, hlg, hca, ht1, ht2, hev, heff⟩ :=
      handleRoleRevoked_inv e ev eff h
    subst hev heff
    have happ : applyHandler .roleRevoked e s =
        applyResult (runHandler .roleRevoked e) s := rfl
    refine ⟨roleS, accountS, rfl, rfl, rfl, ?_, fun k' hk' => ?_⟩
    · rw [happ, h]
      simp [applyResult, memTrans, rem]
    · rw [happ, h]
      simp only [applyResult, memTrans, rem]
      simp [hk']

/-- Witness for C5 at the concrete grant/revoke pair built from the
repository's test-vector addresses. -/
theorem claim_c5_witness :
    (∃ (r a : String) (m : RoleMembership),
        evGrant.role = some r ∧ evGrant.account = some a ∧
        effGrant.putMembership = some m ∧
        m.id = evGrant.contract ++ "-" ++ r ++ "-" ++ a ∧
        m.contract = evGrant.contract ∧ m.role = r ∧ m.account = a ∧
        m.grantedAt = eGrant.ledgerClosedAt ∧
        m.grantedBy = senderOf eGrant.value ∧
        (applyHandler .roleGranted eGrant emptyStore).memberships m.id =
          some m) ∧
    (∃ r a : String,
        evRevoke.role = some r ∧ evRevoke.account = some a ∧
        effRevoke.removeMembershipId =
          some (evRevoke.contract ++ "-" ++ r ++ "-" ++ a) ∧
        (applyHandler .roleRevoked eRevoke
            (applyHandler .roleGranted eGrant emptyStore)).memberships
          (evRevoke.contract ++ "-" ++ r ++ "-" ++ a) = none ∧
        ∀ k', k' ≠ evRevoke.contract ++ "-" ++ r ++ "-" ++ a →
          (applyHandler .roleRevoked eRevoke
              (applyHandler .roleGranted eGrant emptyStore)).memberships k' =
            (applyHandler .roleGranted eGrant emptyStore).memberships k') :=
  ⟨claim_c5_membership_lifecycle.1 eGrant emptyStore evGrant effGrant
      (by decide),
   claim_c5_membership_lifecycle.2 eRevoke
      (applyHandler .roleGranted eGrant emptyStore) evRevoke effRevoke
      (by decide)⟩

/-! ### C7: contract metadata -/

/-- The capability family a kind reports to `updateContractMetadata`. -/
def capabilityOf : Kind → ContractType
  | .roleGranted | .roleRevoked | .roleAdminChanged
  | .adminTransferInitiated | .adminTransferCompleted
  | .adminRenounced => .ACCESS_CONTROL
  | .ownershipTransferStarted | .ownershipTransferCompleted
  | .ownershipRenounced => .OWNABLE

/-- Claim C7 counterexample: An accepted `admin_transfer_initiated` event
performs no contract-metadata write at all: on a fresh store the contract
metadata record is *not* created and no `lastActivityAt` is recorded,
refuting "created on the first accepted event" and "every accepted event
sets lastActivityAt". -/
theorem claim_c7_counterexample :
    runHandler .adminTransferInitiated eAdminInit =
      .accepted evAdminInit { } ∧
    (applyHandler .adminTransferInitiated eAdminInit emptyStore).contracts
      contractC = none := by
  constructor
  · decide
  · decide

/-- Claim C7 amended: The contract-metadata aggregate keyed by
`{contract}` is created on the first accepted event *of the seven
metadata-updating kinds* (all kinds except AdminTransferInitiated and
OwnershipTransferStarted, which never touch it); its type widens
monotonically — once combined it never reverts, and it becomes combined
the first time a different single capability is observed — and each
metadata update sets `lastActivityAt` to the triggering event's
timestamp. -/
theorem claim_c7_amended :
    (∀ (a : String) (t : ContractType) (la : String)
        (g : String → Option ContractMeta),
        g a = none →
        updateContractMetadata a t la g a =
          some { id := a, address := a, type := t, lastActivityAt := la }) ∧
    (∀ (a : String) (t : ContractType) (la : String)
        (g : String → Option ContractMeta),
        ∃ c, updateContractMetadata a t la g a = some c ∧
          c.lastActivityAt = la) ∧
    (∀ (a : String) (t : ContractType) (la : String)
        (g : String → Option ContractMeta) (c : ContractMeta),
        g a = some c → c.type = .ACCESS_CONTROL_OWNABLE →
        ∃ c', updateContractMetadata a t la g a = some c' ∧
          c'.type = .ACCESS_CONTROL_OWNABLE) ∧
    (∀ (a : String) (t : ContractType) (la : String)
        (g : String → Option ContractMeta) (c : ContractMeta),
        g a = some c → t ≠ c.type → (t = .ACCESS_CONTROL ∨ t = .OWNABLE) →
        ∃ c', updateContractMetadata a t la g a = some c' ∧
          c'.type = .ACCESS_CONTROL_OWNABLE) ∧
    (∀ (k : Kind) (e : RawEvent) (ev : AccessControlEvent) (eff : Effects),
        runHandler k e = .accepted ev eff →
        ((k = .adminTransferInitiated ∨ k = .ownershipTransferStarted) →
            eff.metaUpdate = none) ∧
        (¬(k = .adminTransferInitiated ∨ k = .ownershipTransferStarted) →
            eff.metaUpdate =
              some (ev.contract, capabilityOf k, ev.timestamp))) := by
  refine ⟨fun a t la g hga => ?_, fun a t la g => ?_,
    fun a t la g c hga hc => ?_, fun a t la g c hga ht hd => ?_,
    fun k e ev eff h => ?_⟩
  · rw [updateContractMetadata_eq, hga, upd_self]
    rfl
  · rw [updateContractMetadata_eq, upd_self]
    refine ⟨_, rfl, ?_⟩
    rcases g a with _ | c <;> rfl
  · rw [updateContractMetadata_eq, hga, upd_self]
    refine ⟨_, rfl, ?_⟩
    simp only [metaNext]
    split_ifs with hcond
    · rfl
    · exact hc
  · rw [updateContractMetadata_eq, hga, upd_self]
    refine ⟨_, rfl, ?_⟩
    simp only [metaNext]
    rw [if_pos ⟨ht, hd⟩]
  · cases k
    case roleGranted =>
      obtain ⟨lg, ca, roleS, accountS, _, _, _, _, hev, heff⟩ :=
        handleRoleGranted_inv e ev eff h
      subst hev heff
      exact ⟨fun hk => (by rcases hk with h' | h' <;> cases h'), fun _ => rfl⟩
    case roleRevoked =>
      obtain ⟨lg, ca, roleS, accountS, _, _, _, _, hev, heff⟩ :=
        handleRoleRevoked_inv e ev eff h
      subst hev heff
      exact ⟨fun hk => (by rcases hk with h' | h' <;> cases h'), fun _ => rfl⟩
    case roleAdminChanged =>
      obtain ⟨lg, ca, ed, roleS, pS, nS, _, _, _, _, _, _, hev, heff⟩ :=
        handleRoleAdminChanged_inv e ev eff h
      subst hev heff
      exact ⟨fun hk => (by rcases hk with h' | h' <;> cases h'), fun _ => rfl⟩
    case adminTransferInitiated =>
      obtain ⟨lg, ca, ed, cS, nS, n, _, _, _, _, _, _, hev, heff⟩ :=
        handleAdminTransferInitiated_inv e ev eff h
      subst hev heff
      exact ⟨fun _ => rfl, fun hk => absurd (Or.inl rfl) hk⟩
    case adminTransferCompleted =>
      obtain ⟨lg, ca, ed, nS, pS, _, _, _, _, _, hev, heff⟩ :=
        handleAdminTransferCompleted_inv e ev eff h
      subst hev heff
      exact ⟨fun hk => (by rcases hk with h' | h' <;> cases h'), fun _ => rfl⟩
    case adminRenounced =>
      obtain ⟨lg, ca, aS, _, _, _, hev, heff⟩ :=
        handleAdminRenounced_inv e ev eff h
      subst hev heff
      exact ⟨fun hk => (by rcases hk with h' | h' <;> cases h'), fun _ => rfl⟩
    case ownershipTransferStarted =>
      obtain ⟨lg, ca, ed, oS, nS, _, _, _, _, _, hev, heff⟩ :=
        handleOwnershipTransferStarted_inv e ev eff h
      subst hev heff
      exact ⟨fun _ => rfl, fun hk => absurd (Or.inr rfl) hk⟩
    case ownershipTransferCompleted =>
      obtain ⟨lg, ca, ed, nS, _, _, _, _, hev, heff⟩ :=
        handleOwnershipTransferCompleted_inv e ev eff h
      subst hev heff
      exact ⟨fun hk => (by rcases hk with h' | h' <;> cases h'), fun _ => rfl⟩
    case ownershipRenounced =>
      obtain ⟨lg, ca, ed, oS, _, _, _, _, hev, heff⟩ :=
        handleOwnershipRenounced_inv e ev eff h
      subst hev heff
      exact ⟨fun hk => (by rcases hk with h' | h' <;> cases h'), fun _ => rfl⟩

/-- Witness for the amended C7: creation on first metadata-updating event,
and the concrete grant's metadata effect. -/
theorem claim_c7_amended_witness :
    updateContractMetadata contractC .ACCESS_CONTROL "T1" (fun _ => none)
        contractC =
      some { id := contractC, address := contractC, type := .ACCESS_CONTROL,
             lastActivityAt := "T1" } ∧
    effGrant.metaUpdate =
      some (evGrant.contract, capabilityOf .roleGranted, evGrant.timestamp) :=
  ⟨claim_c7_amended.1 contractC .ACCESS_CONTROL "T1" (fun _ => none) rfl,
   (claim_c7_amended.2.2.2.2 .roleGranted eGrant evGrant effGrant
       (by decide)).2 (by simp)⟩

/-! ### C8: optional caller -/

/-- Whether a handler outcome is an acceptance. -/
def isAcceptedB : HandlerResult → Bool
  | .declined => false
  | .accepted _ _ => true

theorem isValidRoleSymbol_shape {v : Option Native}
    (h : isValidRoleSymbol v = true) : ∃ s, v = some (.str s) := by
  rcases v with _ | n
  · cases h
  · rcases n <;> first | exact ⟨_, rfl⟩ | cases h

theorem isValidStellarAddress_shape {v : Option Native}
    (h : isValidStellarAddress v = true) : ∃ s, v = some (.str s) := by
  rcases v with _ | n
  · cases h
  · rcases n <;> first | exact ⟨_, rfl⟩ | cases h

/-- The acceptance condition shared by `handleRoleGranted` and
`handleRoleRevoked`: everything checked before the caller block. -/
def roleEventShapeOk (e : RawEvent) : Bool :=
  e.ledger.isSome && e.topic.length == 3 &&
  (getContractAddress e).isSome &&
  isValidRoleSymbol (safeScValToNative e.topic[1]?) &&
  isValidStellarAddress (safeScValToNative e.topic[2]?)

theorem isAcceptedB_handleRoleGranted (e : RawEvent) :
    isAcceptedB (handleRoleGranted e) = roleEventShapeOk e := by
  simp only [handleRoleGranted, roleEventShapeOk]
  rcases hL : e.ledger with _ | lg <;> simp only [hL, Option.isSome]
  · rfl
  · by_cases hT : e.topic.length = 3 <;>
      [simp only [if_neg (by omega : ¬e.topic.length ≠ 3)];
       simp only [if_pos (by omega : e.topic.length ≠ 3)]]
    · rcases hC : getContractAddress e with _ | ca <;>
        simp only [hC, Option.isSome]
      · simp [isAcceptedB, hT]
      · by_cases hR : isValidRoleSymbol (safeScValToNative e.topic[1]?)
        · by_cases hA :
              isValidStellarAddress (safeScValToNative e.topic[2]?)
          · obtain ⟨rS, hrS⟩ := isValidRoleSymbol_shape hR
            obtain ⟨aS, haS⟩ := isValidStellarAddress_shape hA
            rw [if_neg (by simp [hR, hA])]
            rw [hrS, haS]
            simp [isAcceptedB, hT, hrS ▸ hR, haS ▸ hA]
          · rw [if_pos (by simp [hA])]
            simp [isAcceptedB, Bool.eq_false_iff.mpr hA]
        · rw [if_pos (by simp [hR])]
          simp [isAcceptedB, Bool.eq_false_iff.mpr hR]
    · simp [isAcceptedB, hT]

theorem isAcceptedB_handleRoleRevoked (e : RawEvent) :
    isAcceptedB (handleRoleRevoked e) = roleEventShapeOk e := by
  simp only [handleRoleRevoked, roleEventShapeOk]
  rcases hL : e.ledger with _ | lg <;> simp only [hL, Option.isSome]
  · rfl
  · by_cases hT : e.topic.length = 3 <;>
      [simp only [if_neg (by omega : ¬e.topic.length ≠ 3)];
       simp only [if_pos (by omega : e.topic.length ≠ 3)]]
    · rcases hC : getContractAddress e with _ | ca <;>
        simp only [hC, Option.isSome]
      · simp [isAcceptedB, hT]
      · by_cases hR : isValidRoleSymbol (safeScValToNative e.topic[1]?)
        · by_cases hA :
              isValidStellarAddress (safeScValToNative e.topic[2]?)
          · obtain ⟨rS, hrS⟩ := isValidRoleSymbol_shape hR
            obtain ⟨aS, haS⟩ := isValidStellarAddress_shape hA
            rw [if_neg (by simp [hR, hA])]
            rw [hrS, haS]
            simp [isAcceptedB, hT, hrS ▸ hR, haS ▸ hA]
          · rw [if_pos (by simp [hA])]
            simp [isAcceptedB, Bool.eq_false_iff.mpr hA]
        · rw [if_pos (by simp [hR])]
          simp [isAcceptedB, Bool.eq_false_iff.mpr hR]
    · simp [isAcceptedB, hT]

/-- Claim C8: For RoleGranted and RoleRevoked the caller is optional: the
accepted event's `admin` field is exactly the sender extracted from the
payload; whether the event is accepted at all does not depend on the
payload; and the sender is absent whenever the payload is missing, fails
to decode, decodes to a value without a `caller` key, or carries a caller
that fails address validation — a bad caller never causes a decline. -/
theorem claim_c8_caller_optional :
    (∀ (e : RawEvent) (ev : AccessControlEvent) (eff : Effects),
        runHandler .roleGranted e = .accepted ev eff →
        ev.admin = senderOf e.value) ∧
    (∀ (e : RawEvent) (ev : AccessControlEvent) (eff : Effects),
        runHandler .roleRevoked e = .accepted ev eff →
        ev.admin = senderOf e.value) ∧
    (∀ (e : RawEvent) (v' : Option ScVal),
        isAcceptedB (runHandler .roleGranted { e with value := v' }) =
          isAcceptedB (runHandler .roleGranted e)) ∧
    (∀ (e : RawEvent) (v' : Option ScVal),
        isAcceptedB (runHandler .roleRevoked { e with value := v' }) =
          isAcceptedB (runHandler .roleRevoked e)) ∧
    senderOf none = none ∧
    (∀ sv : ScVal, scValToNative sv = .error () →
        senderOf (some sv) = none) ∧
    (∀ (sv : ScVal) (ed : Native), scValToNative sv = .ok ed →
        ed.hasKey "caller" = false → senderOf (some sv) = none) ∧
    (∀ (sv : ScVal) (ed : Native) (c : Native), scValToNative sv = .ok ed →
        ed.get "caller" = some c → isValidStellarAddress (some c) = false →
        senderOf (some sv) = none) := by
  refine ⟨fun e ev eff h => ?_, fun e ev eff h => ?_, fun e v' => ?_,
    fun e v' => ?_, rfl, fun sv h => ?_, fun sv ed h hk => ?_,
    fun sv ed c h hc hval => ?_⟩
  · obtain ⟨lg, ca, roleS, accountS, _, _, _, _, hev, _⟩ :=
      handleRoleGranted_inv e ev eff h
    subst hev
    rfl
  · obtain ⟨lg, ca, roleS, accountS, _, _, _, _, hev, _⟩ :=
      handleRoleRevoked_inv e ev eff h
    subst hev
    rfl
  · have h1 : roleEventShapeOk { e with value := v' } = roleEventShapeOk e :=
      rfl
    calc isAcceptedB (runHandler .roleGranted { e with value := v' })
        = roleEventShapeOk { e with value := v' } :=
          isAcceptedB_handleRoleGranted _
      _ = roleEventShapeOk e := h1
      _ = isAcceptedB (runHandler .roleGranted e) :=
          (isAcceptedB_handleRoleGranted e).symm
  · have h1 : roleEventShapeOk { e with value := v' } = roleEventShapeOk e :=
      rfl
    calc isAcceptedB (runHandler .roleRevoked { e with value := v' })
        = roleEventShapeOk { e with value := v' } :=
          isAcceptedB_handleRoleRevoked _
      _ = roleEventShapeOk e := h1
      _ = isAcceptedB (runHandler .roleRevoked e) :=
          (isAcceptedB_handleRoleRevoked e).symm
  · simp [senderOf, safeScValToNative, h, tryCatch]
  · simp [senderOf, safeScValToNative, h, tryCatch, hk]
  · simp [senderOf, safeScValToNative, h, tryCatch, hc, hval]

/-- Witness for C8: a syntactically present but invalid caller collapses
to an absent sender on a concrete payload. -/
theorem claim_c8_witness :
    senderOf (some (.enc (.obj [("caller", .str "not_an_address")]))) =
      none :=
  claim_c8_caller_optional.2.2.2.2.2.2.2
    (.enc (.obj [("caller", .str "not_an_address")]))
    (.obj [("caller", .str "not_an_address")]) (.str "not_an_address")
    rfl rfl (by decide)

/-! ### C9: the account field -/

/-- Claim C9 counterexample: A well-formed, accepted `role_admin_changed`
event produces a canonical event whose `account` field is absent — the
source stores `account: undefined` for this kind — refuting the claim
that every produced event carries a non-absent account. -/
theorem claim_c9_counterexample :
    runHandler .roleAdminChanged (eRoleAdminChanged "prev") =
      .accepted (evRoleAdminChanged "prev") effRoleAdminChanged ∧
    (evRoleAdminChanged "prev").account = none := by
  constructor
  · decide
  · rfl

/-- Claim C9 amended: Every accepted event of the eight kinds other than
RoleAdminChanged carries a present (non-absent) `account`; an accepted
RoleAdminChanged event always has `account` absent. -/
theorem claim_c9_amended (k : Kind) (e : RawEvent) (ev : AccessControlEvent)
    (eff : Effects) (h : runHandler k e = .accepted ev eff) :
    (k = .roleAdminChanged → ev.account = none) ∧
    (k ≠ .roleAdminChanged → ∃ a, ev.account = some a) := by
  cases k
  case roleGranted =>
    obtain ⟨lg, ca, roleS, accountS, _, _, _, _, hev, _⟩ :=
      handleRoleGranted_inv e ev eff h
    subst hev
    exact ⟨fun hk => Kind.noConfusion hk, fun _ => ⟨_, rfl⟩⟩
  case roleRevoked =>
    obtain ⟨lg, ca, roleS, accountS, _, _, _, _, hev, _⟩ :=
      handleRoleRevoked_inv e ev eff h
    subst hev
    exact ⟨fun hk => Kind.noConfusion hk, fun _ => ⟨_, rfl⟩⟩
  case roleAdminChanged =>
    obtain ⟨lg, ca, ed, roleS, pS, nS, _, _, _, _, _, _, hev, _⟩ :=
      handleRoleAdminChanged_inv e ev eff h
    subst hev
    exact ⟨fun _ => rfl, fun hk => absurd rfl hk⟩
  case adminTransferInitiated =>
    obtain ⟨lg, ca, ed, cS, nS, n, _, _, _, _, _, _, hev, _⟩ :=
      handleAdminTransferInitiated_inv e ev eff h
    subst hev
    exact ⟨fun hk => Kind.noConfusion hk, fun _ => ⟨_, rfl⟩⟩
  case adminTransferCompleted =>
    obtain ⟨lg, ca, ed, nS, pS, _, _, _, _, _, hev, _⟩ :=
      handleAdminTransferCompleted_inv e ev eff h
    subst hev
    exact ⟨fun hk => Kind.noConfusion hk, fun _ => ⟨_, rfl⟩⟩
  case adminRenounced =>
    obtain ⟨lg, ca, aS, _, _, _, hev, _⟩ :=
      handleAdminRenounced_inv e ev eff h
    subst hev
    exact ⟨fun hk => Kind.noConfusion hk, fun _ => ⟨_, rfl⟩⟩
  case ownershipTransferStarted =>
    obtain ⟨lg, ca, ed, oS, nS, _, _, _, _, _, hev, _⟩ :=
      handleOwnershipTransferStarted_inv e ev eff h
    subst hev
    exact ⟨fun hk => Kind.noConfusion hk, fun _ => ⟨_, rfl⟩⟩
  case ownershipTransferCompleted =>
    obtain ⟨lg, ca, ed, nS, _, _, _, _, hev, _⟩ :=
      handleOwnershipTransferCompleted_inv e ev eff h
    subst hev
    exact ⟨fun hk => Kind.noConfusion hk, fun _ => ⟨_, rfl⟩⟩
  case ownershipRenounced =>
    obtain ⟨lg, ca, ed, oS, _, _, _, _, hev, _⟩ :=
      handleOwnershipRenounced_inv e ev eff h
    subst hev
    exact ⟨fun hk => Kind.noConfusion hk, fun _ => ⟨_, rfl⟩⟩

/-- Witness for the amended C9 at the concrete accepted grant. -/
theorem claim_c9_amended_witness : ∃ a, evGrant.account = some a :=
  (claim_c9_amended .roleGranted eGrant evGrant effGrant (by decide)).2
    (by decide)

/-! ### C10: previous_admin_role is only type-checked -/

/-- Claim C10: In the RoleAdminChanged rule only `new_admin_role` goes
through the identifier validator: an accepted event's
`previous_admin_role` payload field is any string at all, stored verbatim
in the canonical event's `previousAdminRole`; and for every string `p` —
including the empty string, overlong strings and strings with characters
outside `[A-Za-z0-9_]` — the otherwise well-formed event carrying `p` is
accepted with `previousAdminRole = some p`. -/
theorem claim_c10_previous_admin_role :
    (∀ (e : RawEvent) (ev : AccessControlEvent) (eff : Effects),
        runHandler .roleAdminChanged e = .accepted ev eff →
        ∃ (ed : Native) (p : String),
          safeScValToNative e.value = some ed ∧
          ed.get "previous_admin_role" = some (.str p) ∧
          ev.previousAdminRole = some p) ∧
    (∀ p : String,
        runHandler .roleAdminChanged (eRoleAdminChanged p) =
          .accepted (evRoleAdminChanged p) effRoleAdminChanged) := by
  constructor
  · intro e ev eff h
    obtain ⟨lg, ca, ed, roleS, pS, nS, _, _, _, hed, hprev, _, hev, _⟩ :=
      handleRoleAdminChanged_inv e ev eff h
    subst hev
    exact ⟨ed, pS, hed, hprev, rfl⟩
  · intro p
    rfl

/-- Witness for C10 at the concrete event whose `previous_admin_role` is
the empty string (a first-time admin set). -/
theorem claim_c10_witness :
    ∃ (ed : Native) (p : String),
      safeScValToNative (eRoleAdminChanged "").value = some ed ∧
      ed.get "previous_admin_role" = some (.str p) ∧
      (evRoleAdminChanged "").previousAdminRole = some p :=
  claim_c10_previous_admin_role.1 (eRoleAdminChanged "")
    (evRoleAdminChanged "") effRoleAdminChanged
    (claim_c10_previous_admin_role.2 "")

/-! ### C4: algebra of the CRC-16/XMODEM bit fold

The single-character-flip theorem rests on the fact that the CRC step is
a homomorphism with respect to xor: the final CRC difference of two equal
length bit strings is the CRC of their pointwise difference, and a bit
string that is zero except on a window of at most five consecutive
positions has a nonzero CRC. -/

theorem xor_shiftLeft_one (a b : Nat) :
    (a ^^^ b) <<< 1 = (a <<< 1) ^^^ (b <<< 1) := by
  apply Nat.eq_of_testBit_eq
  intro i
  simp only [Nat.testBit_shiftLeft, Nat.testBit_xor, Bool.and_xor_distrib_left]

/-- The CRC step is xor-homomorphic in the state and input bit. -/
theorem crcStep_hom (s1 s2 : Nat) (b1 b2 : Bool) :
    crcStep s1 b1 ^^^ crcStep s2 b2 = crcStep (s1 ^^^ s2) (b1 != b2) := by
  unfold crcStep
  have hsh : ((s1 ^^^ s2) <<< 1) &&& 0xFFFF =
      ((s1 <<< 1) &&& 0xFFFF) ^^^ ((s2 <<< 1) &&& 0xFFFF) := by
    rw [xor_shiftLeft_one, Nat.and_xor_distrib_right]
  rw [hsh, Nat.testBit_xor]
  rcases h1 : s1.testBit 15 <;> rcases h2 : s2.testBit 15 <;>
    rcases hb1 : b1 <;> rcases hb2 : b2 <;>
    simp only [bne_self_eq_false, Bool.false_bne, Bool.true_bne,
      Bool.bne_false, Bool.bne_true, Bool.not_true, Bool.not_false,
      if_true, if_false, ite_true, ite_false, Nat.xor_zero, Nat.zero_xor] <;>
    · first
      | rfl
      | (rw [Nat.xor_assoc, Nat.xor_assoc]
         congr 1
         rw [Nat.xor_comm, Nat.xor_assoc]
         simp)

theorem crcStep_lt (s : Nat) (b : Bool) : crcStep s b < 65536 := by
  unfold crcStep
  have h1 : (s <<< 1) &&& 0xFFFF < 65536 := by
    have := Nat.and_le_right (n := s <<< 1) (m := 0xFFFF)
    omega
  have h2 : (if (s.testBit 15) != b then 0x1021 else 0) < 65536 := by
    split_ifs <;> norm_num
  have h3 : (65536 : ℕ) = 2 ^ 16 := by norm_num
  rw [h3] at h1 h2 ⊢
  exact Nat.xor_lt_two_pow h1 h2

theorem crcStep_zero_false : crcStep 0 false = 0 := by decide

/-- Feeding an equal bit into both runs preserves a nonzero state
difference: the xor-evolution map is injective on 16-bit states. -/
theorem crcStep_false_ne_zero (s : Nat) (hlt : s < 65536) (hne : s ≠ 0) :
    crcStep s false ≠ 0 := by
  unfold crcStep
  rcases hb : s.testBit 15
  · simp only [hb, bne_self_eq_false, Bool.false_bne, if_neg
      (by simp : ¬(false = true)), Nat.xor_zero]
    have hs15 : s < 32768 := by
      rw [Nat.testBit_to_div_mod] at hb
      simp only [decide_eq_false_iff_not] at hb
      have : (2 : ℕ) ^ 15 = 32768 := by norm_num
      rw [this] at hb
      omega
    have hsh : s <<< 1 = 2 * s := by rw [Nat.shiftLeft_eq]; ring
    have hmask : (s <<< 1) &&& 0xFFFF = 2 * s := by
      rw [hsh]
      have h16 : (0xFFFF : ℕ) = 2 ^ 16 - 1 := by norm_num
      rw [h16, Nat.and_pow_two_sub_one_of_lt_two_pow (by norm_num; omega)]
    rw [hmask]
    omega
  · simp only [hb, Bool.true_bne, Bool.not_false, if_pos rfl]
    intro h0
    have hbit := congrArg (fun n => Nat.testBit n 0) h0
    simp only [Nat.testBit_xor, Nat.testBit_and, Nat.testBit_shiftLeft,
      Nat.zero_testBit] at hbit
    norm_num at hbit

theorem foldl_crcStep_lt (l : List Bool) (s : Nat) (h : s < 65536) :
    l.foldl crcStep s < 65536 := by
  induction l generalizing s with
  | nil => simpa using h
  | cons b l ih => exact ih (crcStep s b) (crcStep_lt s b)

theorem foldl_crcStep_replicate_false_zero (k : Nat) :
    (List.replicate k false).foldl crcStep 0 = 0 := by
  induction k with
  | zero => rfl
  | succ n ih => simpa [List.replicate_succ, crcStep_zero_false] using ih

theorem foldl_crcStep_replicate_false_ne_zero (k : Nat) (s : Nat)
    (hlt : s < 65536) (hne : s ≠ 0) :
    (List.replicate k false).foldl crcStep s ≠ 0 := by
  induction k generalizing s with
  | zero => simpa using hne
  | succ n ih =>
    simp only [List.replicate_succ, List.foldl_cons]
    exact ih (crcStep s false) (crcStep_lt s false)
      (crcStep_false_ne_zero s hlt hne)

/-- Fold-level xor homomorphism. -/
theorem foldl_crcStep_hom (l1 : List Bool) :
    ∀ (l2 : List Bool), l1.length = l2.length → ∀ s1 s2,
      (l1.foldl crcStep s1) ^^^ (l2.foldl crcStep s2) =
        (List.zipWith (fun a b => a != b) l1 l2).foldl crcStep
          (s1 ^^^ s2) := by
  induction l1 with
  | nil =>
    intro l2 h s1 s2
    cases l2
    · rfl
    · simp at h
  | cons a l ih =>
    intro l2 h s1 s2
    cases l2 with
    | nil => simp at h
    | cons b l2' =>
      simp only [List.foldl_cons, List.zipWith_cons_cons]
      rw [ih l2' (by simpa using h), crcStep_hom]

/-- All boolean lists of a given length. -/
def allBoolLists : Nat → List (List Bool)
  | 0 => [[]]
  | n + 1 => (allBoolLists n).flatMap fun l => [true :: l, false :: l]

theorem mem_allBoolLists (l : List Bool) : l ∈ allBoolLists l.length := by
  induction l with
  | nil => simp [allBoolLists]
  | cons b l ih =>
    simp only [List.length_cons, allBoolLists, List.mem_flatMap]
    exact ⟨l, ih, by cases b <;> simp⟩

/-- Exhaustive check: every nonzero burst pattern of at most five bits has
a nonzero CRC state. -/
theorem burst_check :
    ((List.range 6).flatMap allBoolLists).all
      (fun l => !(l.any id) || (l.foldl crcStep 0 != 0)) = true := by
  decide

/-- Exhaustive check: no four-bit burst pattern ending at the data/checksum
boundary produces the CRC difference `128` that a simultaneous flip of the
adjoining checksum bit would need. -/
theorem boundary_check :
    (allBoolLists 4).all (fun l => l.foldl crcStep 0 != 128) = true := by
  decide

theorem burst_nonzero (e : List Bool) (h5 : e.length ≤ 5)
    (hany : e.any id = true) : e.foldl crcStep 0 ≠ 0 := by
  have hmem : e ∈ (List.range 6).flatMap allBoolLists := by
    simp only [List.mem_flatMap, List.mem_range]
    exact ⟨e.length, by omega, mem_allBoolLists e⟩
  have := List.all_eq_true.mp burst_check e hmem
  simp only [hany, Bool.not_true, Bool.false_or, bne_iff_ne, ne_eq] at this
  exact this

theorem boundary_ne_128 (e : List Bool) (h4 : e.length = 4) :
    e.foldl crcStep 0 ≠ 128 := by
  have hmem : e ∈ allBoolLists 4 := h4 ▸ mem_allBoolLists e
  have := List.all_eq_true.mp boundary_check e hmem
  simpa [bne_iff_ne] using this

/-! ### Bit-string values and pointwise differences -/

/-- Pointwise difference (xor) of two bit strings. -/
def diffBits (l1 l2 : List Bool) : List Bool :=
  List.zipWith (fun a b => a != b) l1 l2

theorem diffBits_self (l : List Bool) :
    diffBits l l = List.replicate l.length false := by
  induction l with
  | nil => rfl
  | cons b l ih =>
    simp only [diffBits, List.zipWith_cons_cons, bne_self_eq_false,
      List.length_cons, List.replicate_succ] at ih ⊢
    rw [ih]

theorem diffBits_length (l1 l2 : List Bool) (h : l1.length = l2.length) :
    (diffBits l1 l2).length = l1.length := by
  simp [diffBits, h]

theorem diffBits_append (a a' b b' : List Bool) (h : a.length = a'.length) :
    diffBits (a ++ b) (a' ++ b') = diffBits a a' ++ diffBits b b' :=
  List.zipWith_append _ a b a' b' h

theorem diffBits_any_of_ne (l1 : List Bool) :
    ∀ l2, l1.length = l2.length → l1 ≠ l2 →
      (diffBits l1 l2).any id = true := by
  induction l1 with
  | nil =>
    intro l2 h hne
    cases l2
    · exact absurd rfl hne
    · simp at h
  | cons a l ih =>
    intro l2 h hne
    cases l2 with
    | nil => simp at h
    | cons b l2' =>
      by_cases hab : a = b
      · subst hab
        have : l ≠ l2' := fun hh => hne (by rw [hh])
        simp only [diffBits, List.zipWith_cons_cons, List.any_cons,
          bne_self_eq_false, id, Bool.false_or]
        exact ih l2' (by simpa using h) this
      · simp only [diffBits, List.zipWith_cons_cons, List.any_cons, id]
        have : (a != b) = true := by
          cases a <;> cases b <;> simp_all
        simp [this]

theorem bitsToNat_acc (l : List Bool) :
    ∀ n : Nat, l.foldl (fun n b => 2 * n + (if b then 1 else 0)) n =
      n * 2 ^ l.length + bitsToNat l := by
  induction l with
  | nil => intro n; simp [bitsToNat]
  | cons b l ih =>
    intro n
    simp only [List.foldl_cons, bitsToNat, List.length_cons]
    rw [ih, ih (2 * 0 + if b then 1 else 0)]
    ring

theorem bitsToNat_cons (b : Bool) (l : List Bool) :
    bitsToNat (b :: l) = (if b then 2 ^ l.length else 0) + bitsToNat l := by
  show (b :: l).foldl _ 0 = _
  simp only [List.foldl_cons]
  rw [bitsToNat_acc]
  cases b <;> simp

theorem bitsToNat_lt (l : List Bool) : bitsToNat l < 2 ^ l.length := by
  induction l with
  | nil => simp [bitsToNat]
  | cons b l ih =>
    rw [bitsToNat_cons]
    have : (2 : ℕ) ^ (b :: l).length = 2 ^ l.length + 2 ^ l.length := by
      simp [List.length_cons, pow_succ]; ring
    rw [this]
    cases b <;> simp <;> omega

theorem bitsToNat_append (a b : List Bool) :
    bitsToNat (a ++ b) = bitsToNat a * 2 ^ b.length + bitsToNat b := by
  show (a ++ b).foldl _ 0 = _
  rw [List.foldl_append, bitsToNat_acc]
  rfl

theorem bitsToNat_replicate_false (k : Nat) :
    bitsToNat (List.replicate k false) = 0 := by
  induction k with
  | zero => rfl
  | succ n ih => rw [List.replicate_succ, bitsToNat_cons]; simpa using ih

theorem bitsToNat_ne_zero_of_any (l : List Bool) (h : l.any id = true) :
    bitsToNat l ≠ 0 := by
  induction l with
  | nil => simp at h
  | cons b l ih =>
    rw [bitsToNat_cons]
    have hp : 0 < 2 ^ l.length := Nat.pos_pow_of_pos _ (by norm_num)
    rcases (by simpa [id] using h : b = true ∨ l.any id = true) with hb | hl
    · subst hb
      have heq : (if (true : Bool) = true then 2 ^ l.length else 0) =
          2 ^ l.length := if_pos rfl
      rw [heq]
      omega
    · have hne := ih hl
      cases b
      · have heq : (if (false : Bool) = true then 2 ^ l.length else 0) = 0 :=
          if_neg (by simp)
        rw [heq]
        omega
      · have heq : (if (true : Bool) = true then 2 ^ l.length else 0) =
            2 ^ l.length := if_pos rfl
        rw [heq]
        omega

theorem testBit_two_pow_add_of_lt {n u : Nat} (hu : u < 2 ^ n) (i : Nat) :
    (2 ^ n + u).testBit i = if i = n then true else u.testBit i := by
  rcases lt_trichotomy i n with h | h | h
  · rw [if_neg (by omega), Nat.testBit_two_pow_add_gt h]
  · subst h
    rw [if_pos rfl, Nat.testBit_two_pow_add_eq, Nat.testBit_lt_two_pow hu]
    rfl
  · rw [if_neg (by omega)]
    have h1 : 2 ^ n + u < 2 ^ i := by
      calc 2 ^ n + u < 2 ^ n + 2 ^ n := by omega
        _ = 2 ^ (n + 1) := by ring
        _ ≤ 2 ^ i := Nat.pow_le_pow_right (by norm_num) (by omega)
    have h2 : u < 2 ^ i := by omega
    rw [Nat.testBit_lt_two_pow h1, Nat.testBit_lt_two_pow h2]

theorem two_pow_add_xor_two_pow_add {n u v : Nat} (hu : u < 2 ^ n)
    (hv : v < 2 ^ n) : (2 ^ n + u) ^^^ (2 ^ n + v) = u ^^^ v := by
  apply Nat.eq_of_testBit_eq
  intro i
  rw [Nat.testBit_xor, Nat.testBit_xor, testBit_two_pow_add_of_lt hu,
    testBit_two_pow_add_of_lt hv]
  by_cases h : i = n
  · subst h
    simp [Nat.testBit_lt_two_pow hu, Nat.testBit_lt_two_pow hv]
  · simp [h]

theorem two_pow_add_xor_left {n u v : Nat} (hu : u < 2 ^ n)
    (hv : v < 2 ^ n) : (2 ^ n + u) ^^^ v = 2 ^ n + (u ^^^ v) := by
  apply Nat.eq_of_testBit_eq
  intro i
  have hx : u ^^^ v < 2 ^ n := Nat.xor_lt_two_pow hu hv
  rw [Nat.testBit_xor, testBit_two_pow_add_of_lt hu,
    testBit_two_pow_add_of_lt hx]
  by_cases h : i = n
  · subst h
    simp [Nat.testBit_lt_two_pow hv, Nat.testBit_lt_two_pow hx,
      Nat.testBit_xor]
  · simp [h, Nat.testBit_xor]

theorem cond_two_pow_add_xor (B1 B2 : Bool) {n u v : Nat} (hu : u < 2 ^ n)
    (hv : v < 2 ^ n) :
    ((if B1 then 2 ^ n else 0) + u) ^^^ ((if B2 then 2 ^ n else 0) + v) =
      (if (B1 != B2) then 2 ^ n else 0) + (u ^^^ v) := by
  have h0 : (if (false : Bool) = true then 2 ^ n else 0) = 0 :=
    if_neg (by simp)
  have h1 : (if (true : Bool) = true then 2 ^ n else 0) = 2 ^ n := if_pos rfl
  cases B1 <;> cases B2 <;>
    simp only [h0, h1, Bool.true_bne, Bool.false_bne, Bool.bne_true,
      Bool.bne_false, bne_self_eq_false, Bool.not_true, Bool.not_false,
      zero_add, Nat.zero_add]
  · have h2 : (if True then 2 ^ n else 0) = 2 ^ n := if_pos trivial
    rw [Nat.xor_comm u, h2, two_pow_add_xor_left hv hu, Nat.xor_comm v u]
  · exact two_pow_add_xor_left hu hv
  · exact two_pow_add_xor_two_pow_add hu hv

/-- The value of the pointwise difference of two equal-length bit strings
is the xor of their values. -/
theorem bitsToNat_diffBits (l1 : List Bool) :
    ∀ l2, l1.length = l2.length →
      bitsToNat (diffBits l1 l2) = bitsToNat l1 ^^^ bitsToNat l2 := by
  induction l1 with
  | nil =>
    intro l2 h
    cases l2
    · rfl
    · simp at h
  | cons a l ih =>
    intro l2 h
    cases l2 with
    | nil => simp at h
    | cons b l2' =>
      have hlen : l.length = l2'.length := by simpa using h
      have hd : diffBits (a :: l) (b :: l2') =
          (a != b) :: diffBits l l2' := rfl
      rw [hd, bitsToNat_cons, bitsToNat_cons, bitsToNat_cons, ih l2' hlen,
        diffBits_length l l2' hlen]
      have hv1 : bitsToNat l < 2 ^ l.length := bitsToNat_lt l
      have hv2 : bitsToNat l2' < 2 ^ l.length := hlen ▸ bitsToNat_lt l2'
      rw [← hlen]
      exact (cond_two_pow_add_xor a b hv1 hv2).symm

/-! ### Base-32 characters and string bits -/

theorem char_le_iff {a b : Char} : a ≤ b ↔ a.toNat ≤ b.toNat := Iff.rfl

theorem char_toNat_inj {a b : Char} (h : a.toNat = b.toNat) : a = b :=
  Char.ext (congrArg UInt32.mk (BitVec.eq_of_toNat_eq h))

theorem b32Val_inv {c : Char} {v : Nat} (h : b32Val c = some v) :
    (65 ≤ c.toNat ∧ c.toNat ≤ 90 ∧ v = c.toNat - 65) ∨
    (50 ≤ c.toNat ∧ c.toNat ≤ 55 ∧ v = c.toNat - 50 + 26) := by
  unfold b32Val at h
  split_ifs at h with h1 h2
  · obtain ⟨ha, hb⟩ := h1
    injection h with hv
    exact .inl ⟨char_le_iff.mp ha, char_le_iff.mp hb, hv.symm⟩
  · obtain ⟨ha, hb⟩ := h2
    injection h with hv
    exact .inr ⟨char_le_iff.mp ha, char_le_iff.mp hb, hv.symm⟩

theorem b32Val_lt {c : Char} {v : Nat} (h : b32Val c = some v) : v < 32 := by
  rcases b32Val_inv h with ⟨h1, h2, h3⟩ | ⟨h1, h2, h3⟩ <;> omega

theorem b32Val_inj {c c' : Char} {v : Nat} (h : b32Val c = some v)
    (h' : b32Val c' = some v) : c = c' := by
  rcases b32Val_inv h with ⟨h1, h2, h3⟩ | ⟨h1, h2, h3⟩ <;>
    rcases b32Val_inv h' with ⟨h1', h2', h3'⟩ | ⟨h1', h2', h3'⟩ <;>
    [skip; omega; omega; skip] <;>
    · exact char_toNat_inj (by omega)

theorem bits5_length (v : Nat) : (bits5 v).length = 5 := rfl

theorem bits5_inj :
    ∀ v < 32, ∀ w < 32, bits5 v = bits5 w → v = w := by decide

theorem strBits_nil : strBits [] = some [] := rfl

theorem strBits_cons (c : Char) (cs : List Char) :
    strBits (c :: cs) =
      match b32Val c, strBits cs with
      | some v, some bs => some (bits5 v ++ bs)
      | _, _ => none := rfl

/-- Decomposing the bit string of a character list around one position. -/
theorem strBits_append_inv (pre : List Char) :
    ∀ (c : Char) (suf : List Char) (bits : List Bool),
      strBits (pre ++ c :: suf) = some bits →
      ∃ (bp : List Bool) (v : Nat) (bs : List Bool),
        strBits pre = some bp ∧ b32Val c = some v ∧ strBits suf = some bs ∧
        bits = bp ++ (bits5 v ++ bs) ∧ bp.length = 5 * pre.length := by
  induction pre with
  | nil =>
    intro c suf bits h
    rw [List.nil_append, strBits_cons] at h
    rcases hv : b32Val c with _ | v <;> rw [hv] at h
    · cases h
    · rcases hs : strBits suf with _ | bs <;> rw [hs] at h
      · cases h
      · injection h with hb
        exact ⟨[], v, bs, rfl, rfl, rfl, hb.symm, rfl⟩
  | cons c0 pre ih =>
    intro c suf bits h
    rw [List.cons_append, strBits_cons] at h
    rcases hv0 : b32Val c0 with _ | v0 <;> rw [hv0] at h
    · cases h
    · rcases hrest : strBits (pre ++ c :: suf) with _ | bs0 <;>
        rw [hrest] at h
      · cases h
      · injection h with hb
        obtain ⟨bp, v, bs, hpre, hc, hsuf, hbits, hlen⟩ :=
          ih c suf bs0 hrest
        refine ⟨bits5 v0 ++ bp, v, bs, ?_, hc, hsuf, ?_, ?_⟩
        · rw [strBits_cons, hv0, hpre]
        · rw [← hb, hbits, List.append_assoc]
        · simp only [List.length_append, List.length_cons, bits5_length,
            hlen]
          ring

/-- Rebuilding the bit string after replacing one character. -/
theorem strBits_append_build {pre suf : List Char} {bp bs : List Bool}
    {c' : Char} {v' : Nat} (hpre : strBits pre = some bp)
    (hc : b32Val c' = some v') (hsuf : strBits suf = some bs) :
    strBits (pre ++ c' :: suf) = some (bp ++ (bits5 v' ++ bs)) := by
  induction pre generalizing bp with
  | nil =>
    rw [strBits_nil] at hpre
    injection hpre with hb
    subst hb
    rw [List.nil_append, strBits_cons, hc, hsuf]
    rfl
  | cons c0 pre ih =>
    rw [strBits_cons] at hpre
    rcases hv0 : b32Val c0 with _ | v0 <;> rw [hv0] at hpre
    · cases hpre
    · rcases hrest : strBits pre with _ | bs0 <;> rw [hrest] at hpre
      · cases hpre
      · injection hpre with hb
        subst hb
        rw [List.cons_append, strBits_cons, hv0, ih hrest,
          List.append_assoc]

/-- If the replacement character is not in the alphabet, the whole string
fails to decode. -/
theorem strBits_append_bad {pre suf : List Char} {c' : Char}
    (hc : b32Val c' = none) :
    strBits (pre ++ c' :: suf) = none := by
  induction pre with
  | nil =>
    rw [List.nil_append, strBits_cons, hc]
  | cons c0 pre ih =>
    rw [List.cons_append, strBits_cons, ih]
    rcases b32Val c0 <;> rfl

/-! ### Strkey checksum structure -/

theorem strBits_length : ∀ (l : List Char) (b : List Bool),
    strBits l = some b → b.length = 5 * l.length := by
  intro l
  induction l with
  | nil =>
    intro b h
    rw [strBits_nil] at h
    injection h with h
    subst h
    rfl
  | cons c cs ih =>
    intro b h
    rw [strBits_cons] at h
    rcases hv : b32Val c with _ | v <;> rw [hv] at h
    · cases h
    · rcases hs : strBits cs with _ | bs <;> rw [hs] at h
      · cases h
      · injection h with hb
        rw [← hb]
        simp only [List.length_append, bits5_length, ih bs hs,
          List.length_cons]
        ring

/-- The 2-byte little-endian checksum value carried by a 280-bit strkey
bit string. -/
def storedVal (bits : List Bool) : Nat :=
  bitsToNat ((bits.drop 264).take 8) + 256 * bitsToNat (bits.drop 272)

theorem strkeyCheck_iff (version : Nat) (s : String) :
    strkeyCheck version s = true ↔
      s.length = 56 ∧ ∃ bits, strBits s.data = some bits ∧
        bitsToNat (bits.take 8) = version ∧
        crcBits (bits.take 264) = storedVal bits := by
  unfold strkeyCheck storedVal
  split_ifs with hlen
  · simp [hlen]
  · rcases h : strBits s.data with _ | bits
    · simp [h]
    · simp only [h, Bool.and_eq_true, beq_iff_eq, Option.some.injEq]
      constructor
      · rintro ⟨h1, h2⟩
        exact ⟨by omega, bits, rfl, h1, h2⟩
      · rintro ⟨h1, bits', hb, h2, h3⟩
        subst hb
        exact ⟨h2, h3⟩

theorem strkeyCheck_eq_false_of_none {s : String}
    (h : strBits s.data = none) (v : Nat) : strkeyCheck v s = false := by
  unfold strkeyCheck
  split_ifs
  · rfl
  · rw [h]

theorem strkeyCheck_eq_false_of_length {s : String} (h : s.length ≠ 56)
    (v : Nat) : strkeyCheck v s = false := by
  unfold strkeyCheck
  rw [if_pos h]

theorem crcBits_append (a b : List Bool) :
    crcBits (a ++ b) = b.foldl crcStep (crcBits a) :=
  List.foldl_append _ _ a b

theorem crcBits_zeros_append (k : Nat) (rest : List Bool) :
    crcBits (List.replicate k false ++ rest) = crcBits rest := by
  rw [crcBits_append]
  unfold crcBits
  rw [foldl_crcStep_replicate_false_zero]

theorem crcBits_xor (l1 l2 : List Bool) (h : l1.length = l2.length) :
    crcBits l1 ^^^ crcBits l2 = crcBits (diffBits l1 l2) := by
  unfold crcBits diffBits
  simpa using foldl_crcStep_hom l1 l2 h 0 0

theorem bitsToNat_zeros_append (k : Nat) (rest : List Bool) :
    bitsToNat (List.replicate k false ++ rest) = bitsToNat rest := by
  rw [bitsToNat_append, bitsToNat_replicate_false]
  ring

theorem storedVal_eq (bits : List Bool) (h : bits.length = 280) :
    storedVal bits =
      bitsToNat (bits.drop 272 ++ (bits.drop 264).take 8) := by
  rw [bitsToNat_append]
  have h8 : ((bits.drop 264).take 8).length = 8 := by
    simp [List.length_take, List.length_drop, h]
  rw [h8]
  unfold storedVal
  have h256 : (2 : ℕ) ^ 8 = 256 := by norm_num
  rw [h256]
  ring

theorem storedVal_xor (b1 b2 : List Bool) (h1 : b1.length = 280)
    (h2 : b2.length = 280) :
    storedVal b1 ^^^ storedVal b2 =
      bitsToNat ((diffBits b1 b2).drop 272 ++
        ((diffBits b1 b2).drop 264).take 8) := by
  rw [storedVal_eq b1 h1, storedVal_eq b2 h2,
    ← bitsToNat_diffBits _ _ (by simp [h1, h2])]
  congr 1
  rw [diffBits_append _ _ _ _ (by simp [h1, h2])]
  unfold diffBits
  rw [← List.drop_zipWith, ← List.take_zipWith, ← List.drop_zipWith]

/-- Two strings differing in exactly one character position. -/
def differOne (s s' : String) : Prop :=
  ∃ (pre : List Char) (c c' : Char) (suf : List Char),
    c ≠ c' ∧ s.data = pre ++ c :: suf ∧ s'.data = pre ++ c' :: suf

/-- Core of the single-character-flip theorem: if a strkey passes the
structural check for some version byte, then any string differing from it
in exactly one character fails the structural check for **every** version
byte, because the CRC-16/XMODEM checksum (which covers the version byte
and payload) detects every burst of at most five bits. -/
theorem strkeyCheck_flip {s s' : String} {version : Nat}
    (hchk : strkeyCheck version s = true)
    {pre : List Char} {c c' : Char} {suf : List Char} (hcc : c ≠ c')
    (hs : s.data = pre ++ c :: suf) (hs' : s'.data = pre ++ c' :: suf)
    (version' : Nat) : strkeyCheck version' s' = false := by
  obtain ⟨hlen56, bits, hbits0, hver, hcrc⟩ :=
    (strkeyCheck_iff version s).mp hchk
  rw [hs] at hbits0
  obtain ⟨bp, v, bs, hpre, hcv, hsuf, hbeq, hbplen⟩ :=
    strBits_append_inv pre c suf bits hbits0
  have hdata56 : s.data.length = 56 := by
    rw [← string_length_data]; exact hlen56
  have hpcs : pre.length + suf.length + 1 = 56 := by
    rw [hs] at hdata56
    simp only [List.length_append, List.length_cons] at hdata56
    omega
  have hbitslen : bits.length = 280 := by
    have h1 := strBits_length _ _ hbits0
    simp only [List.length_append, List.length_cons] at h1
    omega
  have hm : bp.length + 5 + bs.length = 280 := by
    rw [hbeq] at hbitslen
    simp only [List.length_append, bits5_length] at hbitslen
    omega
  have hs'len : s'.length = 56 := by
    rw [string_length_data, hs']
    simp only [List.length_append, List.length_cons]
    omega
  rcases hvc' : b32Val c' with _ | v'
  · exact strkeyCheck_eq_false_of_none
      (by rw [hs']; exact strBits_append_bad hvc') version'
  · have hvlt : v < 32 := b32Val_lt hcv
    have hvlt' : v' < 32 := b32Val_lt hvc'
    have hvv : v ≠ v' := by
      intro he
      exact hcc (b32Val_inj hcv (by rw [hvc', ← he]))
    have hbits' : strBits s'.data = some (bp ++ (bits5 v' ++ bs)) := by
      rw [hs']
      exact strBits_append_build hpre hvc' hsuf
    have hbits'len : (bp ++ (bits5 v' ++ bs)).length = 280 := by
      simp only [List.length_append, bits5_length]
      omega
    have hD : diffBits bits (bp ++ (bits5 v' ++ bs)) =
        List.replicate bp.length false ++
          (diffBits (bits5 v) (bits5 v') ++
            List.replicate bs.length false) := by
      rw [hbeq, diffBits_append _ _ _ _ rfl, diffBits_self,
        diffBits_append _ _ _ _ (by rw [bits5_length, bits5_length]),
        diffBits_self]
    have helen : (diffBits (bits5 v) (bits5 v')).length = 5 := by
      rw [diffBits_length _ _ (by rw [bits5_length, bits5_length]),
        bits5_length]
    have heany : (diffBits (bits5 v) (bits5 v')).any id = true := by
      apply diffBits_any_of_ne _ _ (by rw [bits5_length, bits5_length])
      intro hbb
      exact hvv (bits5_inj v hvlt v' hvlt' hbb)
    by_contra hne
    have hne' : strkeyCheck version' s' = true := by
      rcases hb : strkeyCheck version' s'
      · exact absurd hb hne
      · rfl
    obtain ⟨_, bits'', hbits'', hver', hcrc'⟩ :=
      (strkeyCheck_iff version' s').mp hne'
    rw [hbits'] at hbits''
    injection hbits'' with hbb
    subst hbb
    set e := diffBits (bits5 v) (bits5 v') with hedef
    set D := diffBits bits (bp ++ (bits5 v' ++ bs)) with hDdef
    have hDeq : crcBits (D.take 264) =
        bitsToNat (D.drop 272 ++ (D.drop 264).take 8) := by
      have e1 : crcBits (bits.take 264) ^^^
          crcBits ((bp ++ (bits5 v' ++ bs)).take 264) =
          crcBits (D.take 264) := by
        rw [crcBits_xor _ _ (by simp [hbitslen, hbits'len]), hDdef]
        unfold diffBits
        rw [List.take_zipWith]
      have e2 := storedVal_xor bits (bp ++ (bits5 v' ++ bs)) hbitslen
        hbits'len
      rw [← hDdef] at e2
      rw [← e1, hcrc, hcrc']
      exact e2
    have hdrop272 : D.drop 272 = (D.drop 264).drop 8 :=
      (List.drop_drop 8 264 D).symm
    rcases (by omega :
        bp.length + 5 ≤ 264 ∨ bp.length = 260 ∨ 264 < bp.length) with
      hA | hC | hB
    · -- Case A: the flip is entirely inside the CRC-covered data bytes
      have htake : D.take 264 =
          List.replicate bp.length false ++
            (e ++ List.replicate (259 - bp.length) false) := by
        rw [hD, List.take_append_eq_append_take, List.take_replicate,
          Nat.min_eq_right (by omega), List.length_replicate,
          List.take_append_eq_append_take,
          List.take_of_length_le (by omega : e.length ≤ 264 - bp.length),
          List.take_replicate]
        congr 3
        omega
      have hdrop : D.drop 264 = List.replicate 16 false := by
        rw [hD, List.drop_append_eq_append_drop, List.drop_replicate,
          List.length_replicate,
          List.drop_append_eq_append_drop,
          List.drop_eq_nil_of_le (by omega : e.length ≤ 264 - bp.length),
          List.drop_replicate]
        have h1 : bp.length - 264 = 0 := by omega
        have h2 : bs.length - (264 - bp.length - e.length) = 16 := by
          rw [helen]; omega
        rw [h1, h2, List.replicate_zero, List.nil_append, List.nil_append]
      rw [htake, hdrop, hdrop272, hdrop] at hDeq
      have hL : crcBits (List.replicate bp.length false ++
          (e ++ List.replicate (259 - bp.length) false)) ≠ 0 := by
        rw [crcBits_zeros_append, crcBits_append]
        exact foldl_crcStep_replicate_false_ne_zero _ _
          (foldl_crcStep_lt _ _ (by norm_num))
          (burst_nonzero e (le_of_eq helen) heany)
      have hR : bitsToNat ((List.replicate 16 false).drop 8 ++
          (List.replicate 16 false).take 8) = 0 := by
        rw [List.drop_replicate, List.take_replicate]
        rw [bitsToNat_zeros_append, bitsToNat_replicate_false]
      exact hL (hDeq.trans hR)
    · -- Case C: the flip straddles the data/checksum boundary (char 52)
      have hbs15 : bs.length = 15 := by omega
      have htake : D.take 264 =
          List.replicate bp.length false ++ e.take 4 := by
        rw [hD, List.take_append_eq_append_take, List.take_replicate,
          Nat.min_eq_right (by omega), List.length_replicate,
          List.take_append_eq_append_take]
        have h4 : 264 - bp.length = 4 := by omega
        rw [h4]
        have h0 : 4 - e.length = 0 := by omega
        rw [h0, List.take_zero, List.append_nil]
      have hdrop : D.drop 264 = e.drop 4 ++ List.replicate 15 false := by
        rw [hD, List.drop_append_eq_append_drop, List.drop_replicate,
          List.length_replicate,
          List.drop_append_eq_append_drop]
        have h1 : bp.length - 264 = 0 := by omega
        have h4 : 264 - bp.length = 4 := by omega
        have h0 : 4 - e.length = 0 := by omega
        rw [h1, h4, h0, List.replicate_zero, List.nil_append,
          List.drop_zero, hbs15]
      -- destructure the five difference bits
      rcases he5 : e with _ | ⟨d0, e1⟩
      · rw [he5] at helen; cases helen
      rcases e1 with _ | ⟨d1, e2⟩
      · rw [he5] at helen; cases helen
      rcases e2 with _ | ⟨d2, e3⟩
      · rw [he5] at helen; cases helen
      rcases e3 with _ | ⟨d3, e4⟩
      · rw [he5] at helen; cases helen
      rcases e4 with _ | ⟨d4, e5⟩
      · rw [he5] at helen; cases helen
      rcases e5 with _ | ⟨d5, e6⟩
      swap
      · rw [he5] at helen
        simp at helen
      rw [he5] at htake hdrop heany
      have htake4 : ([d0, d1, d2, d3, d4] : List Bool).take 4 =
          [d0, d1, d2, d3] := rfl
      have hdrop4 : ([d0, d1, d2, d3, d4] : List Bool).drop 4 = [d4] := rfl
      rw [htake4] at htake
      rw [hdrop4] at hdrop
      rw [htake, hdrop, hdrop272, hdrop] at hDeq
      have hLeft : crcBits (List.replicate bp.length false ++
          [d0, d1, d2, d3]) =
          ([d0, d1, d2, d3] : List Bool).foldl crcStep 0 := by
        rw [crcBits_zeros_append]
        rfl
      have hRight : bitsToNat ((([d4] : List Bool) ++
          List.replicate 15 false).drop 8 ++
          (([d4] : List Bool) ++ List.replicate 15 false).take 8) =
          if d4 then 128 else 0 := by
        have hdp : (([d4] : List Bool) ++ List.replicate 15 false).drop 8 =
            List.replicate 8 false := by
          rw [List.drop_append_eq_append_drop]
          simp [List.drop_replicate]
        have htp : (([d4] : List Bool) ++ List.replicate 15 false).take 8 =
            d4 :: List.replicate 7 false := by
          rw [List.take_append_eq_append_take]
          simp [List.take_replicate]
        rw [hdp, htp, bitsToNat_zeros_append, bitsToNat_cons,
          bitsToNat_replicate_false, List.length_replicate]
        norm_num
      rw [hLeft, hRight] at hDeq
      rcases hd4 : d4
      · -- checksum bits unchanged: the four data bits must differ
        rw [hd4] at hDeq
        simp only [if_neg (by simp : ¬(false = true))] at hDeq
        have hany4 : ([d0, d1, d2, d3] : List Bool).any id = true := by
          rw [hd4] at heany
          simpa [id] using heany
        exact burst_nonzero [d0, d1, d2, d3] (by norm_num) hany4
          hDeq
      · -- checksum bit flipped: the CRC difference would have to be 128
        rw [hd4] at hDeq
        simp only [if_pos rfl] at hDeq
        exact boundary_ne_128 [d0, d1, d2, d3] rfl hDeq
    · -- Case B: the flip is entirely inside the stored checksum bytes
      have htake : D.take 264 = List.replicate 264 false := by
        rw [hD, List.take_append_eq_append_take, List.take_replicate,
          Nat.min_eq_left (by omega), List.length_replicate]
        have h0 : 264 - bp.length = 0 := by omega
        rw [h0, List.take_zero, List.append_nil]
      have hdrop : D.drop 264 =
          List.replicate (bp.length - 264) false ++
            (e ++ List.replicate bs.length false) := by
        rw [hD, List.drop_append_eq_append_drop, List.drop_replicate,
          List.length_replicate]
        have h0 : 264 - bp.length = 0 := by omega
        rw [h0, List.drop_zero]
      have hL : crcBits (D.take 264) = 0 := by
        rw [htake]
        exact foldl_crcStep_replicate_false_zero 264
      have hany : (D.drop 264).any id = true := by
        rw [hdrop]
        simp only [List.any_append]
        have : e.any id = true := heany
        simp [this]
      have hR : bitsToNat ((D.drop 264).drop 8 ++ (D.drop 264).take 8) ≠
          0 := by
        apply bitsToNat_ne_zero_of_any
        rw [List.any_append, Bool.or_comm, ← List.any_append,
          List.take_append_drop]
        exact hany
      rw [hdrop272] at hDeq
      rw [hL] at hDeq
      exact hR hDeq.symm

/-- The test-vector account address with its last character flipped
(checksum broken). -/
def accountAFlip : String :=
  "GATJOHDT66JL2NL6D2RRWIHUX2YTT6PDH45Q7B4YSPWESY4TFWMAUKTA"

/-- Claim C4: The address validator (with `StrKey` modelled from the spec:
56-character base-32 strkey with version byte and CRC-16/XMODEM checksum)
rejects every non-string value; rejects every string whose leading
character is neither 'G' nor 'C'; rejects every string whose length is
not 56 (truncation or padding); on the two recognized discriminators it
accepts exactly the structurally well-formed checksummed encodings; and
for any accepted address, changing any single character — including
flipping a checksum character or swapping the discriminator while keeping
the payload — yields a rejected string. -/
theorem claim_c4_address_validator :
    (∀ v : Option Native, (∀ s, v ≠ some (.str s)) →
        isValidStellarAddress v = false) ∧
    (∀ s : String, jsStartsWith s 'G' = false → jsStartsWith s 'C' = false →
        isValidStellarAddressStr s = false) ∧
    (∀ s : String, s.length ≠ 56 → isValidStellarAddressStr s = false) ∧
    (∀ s : String, jsStartsWith s 'G' = true →
        isValidStellarAddressStr s = strkeyCheck 48 s) ∧
    (∀ s : String, jsStartsWith s 'G' = false →
        jsStartsWith s 'C' = true →
        isValidStellarAddressStr s = strkeyCheck 16 s) ∧
    (∀ s s' : String, isValidStellarAddressStr s = true → differOne s s' →
        isValidStellarAddressStr s' = false) := by
  refine ⟨fun v h => ?_, fun s h1 h2 => ?_, fun s h => ?_,
    fun s h => ?_, fun s h1 h2 => ?_, fun s s' hval hdiff => ?_⟩
  · rcases v with _ | n
    · rfl
    · rcases n with s | n | n | b | _ | fs | es | bsv
      · exact absurd rfl (h s)
      all_goals rfl
  · unfold isValidStellarAddressStr
    rw [h1, h2]
    rfl
  · unfold isValidStellarAddressStr isValidEd25519PublicKey isValidContract
    split_ifs <;>
      first
        | exact strkeyCheck_eq_false_of_length h _
        | rfl
  · unfold isValidStellarAddressStr isValidEd25519PublicKey
    rw [h]
    rfl
  · unfold isValidStellarAddressStr isValidContract
    rw [h1, h2]
    rfl
  · obtain ⟨pre, c, c', suf, hcc, hs, hs'⟩ := hdiff
    have hflip : ∀ version', strkeyCheck version' s' = false := by
      have hcases : strkeyCheck 48 s = true ∨ strkeyCheck 16 s = true := by
        unfold isValidStellarAddressStr isValidEd25519PublicKey
          isValidContract at hval
        split_ifs at hval
        · exact .inl hval
        · exact .inr hval
      rcases hcases with h | h
      · exact strkeyCheck_flip h hcc hs hs'
      · exact strkeyCheck_flip h hcc hs hs'
    unfold isValidStellarAddressStr isValidEd25519PublicKey isValidContract
    split_ifs
    · exact hflip 48
    · exact hflip 16
    · rfl

/-- Witness for C4: the repository's own test vectors — a genuine account
address is accepted; the same address with its last character flipped,
a non-address string, and a truncated address are all rejected. -/
theorem claim_c4_witness :
    isValidStellarAddressStr accountA = true ∧
    isValidStellarAddressStr accountAFlip = false ∧
    isValidStellarAddressStr "hello_world" = false ∧
    isValidStellarAddressStr "GATJOHDT" = false :=
  ⟨by decide,
   claim_c4_address_validator.2.2.2.2.2 accountA accountAFlip (by decide)
     ⟨("GATJOHDT66JL2NL6D2RRWIHUX2YTT6PDH45Q7B4YSPWESY4TFWMAUKT").data,
      'T', 'A', [], by decide, by decide, by decide⟩,
   claim_c4_address_validator.2.1 "hello_world" (by decide) (by decide),
   claim_c4_address_validator.2.2.1 "GATJOHDT" (by decide)⟩

end Indexer
